import Mathlib

/-!
Verification of the balancer-subgraph-v2 liquidity/price accounting core.

Shallow embedding of the subgraph mapping code:
* the pricing module (isPricingAsset, isUSDStable, updatePoolLiquidity,
  poolLiquidityInUSD) from the pricing source file;
* the vault event handlers (handleBalanceChange, handlePoolJoined,
  handlePoolExited, handleSwapEvent, handleBalanceManage,
  handleInternalBalanceChange) from the vault mappings source file;
* the pool factory bookkeeping (findOrInitializeVault, handleNewPool).

AssemblyScript BigDecimal is modelled as Rat (exact arithmetic), BigInt as
Int, addresses and ids as String.  The graph-node entity store is modelled
as a record of partial maps; a handler is a function Store → Option Store
where the value none models an AssemblyScript trap / thrown error (the
indexing runtime then discards every write of the failed handler, per the
concurrency and resource model of the design: a handler either fully
completes its writes or the event's writes are discarded).
Collaborator calls that are out of the core's scope (snapshots, token
statistics, weight refresh) are recorded in an append-only effect log.
-/

namespace BalancerV2

abbrev Addr := String

/-- BigDecimal values are modelled as exact rationals. -/
abbrev Dec := ℚ

/-- BigInt values are modelled as unbounded integers. -/
abbrev BInt := ℤ

/-- Allow-lists and USD anchors, from the constants module (spec design
note: the fixed allow-lists map to an explicit configuration set). -/
structure Config where
  PRICING_ASSETS : List Addr
  USD_STABLE_ASSETS : List Addr
  USDC : Addr
  DAI : Addr

structure Pool where
  tokensList : List Addr
  tokensCount : BInt
  liquidity : Option Dec
  swapsCount : BInt
  totalSwapVolume : Dec
  totalSwapFee : Dec
  swapFee : Dec
  poolType : Option String
  createTime : BInt
  deriving DecidableEq

structure PoolToken where
  balance : Dec
  invested : Dec
  deriving DecidableEq

structure TokenPriceE where
  price : Dec
  amount : Dec
  timestamp : BInt
  deriving DecidableEq

structure LatestPriceE where
  asset : Addr
  pricingAsset : Addr
  price : Dec
  block : BInt
  poolId : String
  deriving DecidableEq

structure PoolHistoricalLiquidityE where
  poolLiquidity : Dec
  deriving DecidableEq

structure BalancerE where
  poolCount : ℤ
  totalLiquidity : Dec
  totalSwapVolume : Dec
  totalSwapFee : Dec
  totalSwapCount : BInt
  deriving DecidableEq

structure SwapE where
  tokenIn : Addr
  tokenInSym : String
  tokenAmountIn : Dec
  tokenOut : Addr
  tokenOutSym : String
  tokenAmountOut : Dec
  poolId : String
  userAddress : Addr
  timestamp : BInt
  tx : String
  deriving DecidableEq

structure BatchSwapE where
  tokenIn : Addr
  tokenAmountIn : Dec
  tokenOut : Addr
  tokenAmountOut : Dec
  swaps : List (String × BInt)
  matchingTokens : Bool
  user : Addr
  deriving DecidableEq

inductive JoinExitType
  | Join
  | Exit
  deriving DecidableEq

structure JoinExitE where
  type' : JoinExitType
  amounts : List Dec
  pool : String
  user : Addr
  sender : Addr
  timestamp : BInt
  tx : String
  deriving DecidableEq

structure UserE where
  totalSwapVolume : Dec
  totalSwapFee : Dec
  totalSwapCount : BInt
  deriving DecidableEq

structure TradePairE where
  token0 : Addr
  token1 : Addr
  totalSwapVolume : Dec
  totalSwapFee : Dec
  deriving DecidableEq

structure TradePairPriceE where
  price : Dec
  deriving DecidableEq

structure UserInternalBalanceE where
  userAddress : Addr
  token : Addr
  balance : Dec
  deriving DecidableEq

structure InvestmentE where
  assetManagerAddress : Addr
  amount : Dec
  timestamp : BInt
  deriving DecidableEq

structure TokenE where
  decimals : ℕ
  symbol : String
  deriving DecidableEq

/-- Out-of-core collaborator invocations (snapshot and statistics rollups,
weight refresh) are recorded as opaque effects rather than modelled. -/
inductive Effect
  | poolSnapshot (poolId : String) (timestamp : BInt)
  | swapSnapshot (poolId : String) (timestamp : BInt) (volume : Dec) (fees : Dec)
  | balancerSnapshot (id : String) (timestamp : BInt)
  | userSnapshot (user : Addr) (timestamp : BInt)
  | tradePairSnapshot (pairId : String) (timestamp : BInt)
  | uptickSwapsForToken (token : Addr)
  | updateTokenBalances (token : Addr) (usdValue : Dec) (amount : Dec) (direction : ℕ)
  | updatePoolWeights (poolId : String)
  deriving DecidableEq

/-- The entity store: partial maps keyed the way the subgraph keys its
entities (composite string ids are modelled as tuples of their parts). -/
structure Store where
  pools : String → Option Pool
  poolIds : List String
  poolTokens : String × Addr → Option PoolToken
  tokenPrices : String × Addr × Addr × BInt → Option TokenPriceE
  latestPrices : Addr × Addr → Option LatestPriceE
  phls : String × Addr × BInt → Option PoolHistoricalLiquidityE
  balancer : Option BalancerE
  swaps : String × BInt → Option SwapE
  batchSwaps : String → Option BatchSwapE
  joinExits : String × BInt → Option JoinExitE
  users : Addr → Option UserE
  tradePairs : String → Option TradePairE
  tradePairPrices : String × BInt → Option TradePairPriceE
  userInternalBalances : String → Option UserInternalBalanceE
  investments : String × Addr × Addr → Option InvestmentE
  tokens : Addr → Option TokenE
  effects : List Effect

def upd {α β : Type} [DecidableEq α] (f : α → Option β) (k : α) (v : β) : α → Option β :=
  fun x => if x = k then some v else f x

def emptyStore : Store where
  pools := fun _ => none
  poolIds := []
  poolTokens := fun _ => none
  tokenPrices := fun _ => none
  latestPrices := fun _ => none
  phls := fun _ => none
  balancer := none
  swaps := fun _ => none
  batchSwaps := fun _ => none
  joinExits := fun _ => none
  users := fun _ => none
  tradePairs := fun _ => none
  tradePairPrices := fun _ => none
  userInternalBalances := fun _ => none
  investments := fun _ => none
  tokens := fun _ => none
  effects := []

def setPool (s : Store) (pid : String) (p : Pool) : Store :=
  { s with pools := upd s.pools pid p }

/-- Creation of a brand new pool record also registers its id (the store
keeps the set of existing pool ids so that protocol-wide sums over all
pools are well defined). -/
def createPool (s : Store) (pid : String) (p : Pool) : Store :=
  { s with pools := upd s.pools pid p, poolIds := pid :: s.poolIds }

def setPoolToken (s : Store) (k : String × Addr) (v : PoolToken) : Store :=
  { s with poolTokens := upd s.poolTokens k v }

def setTokenPrice (s : Store) (k : String × Addr × Addr × BInt) (v : TokenPriceE) : Store :=
  { s with tokenPrices := upd s.tokenPrices k v }

def setLatestPrice (s : Store) (k : Addr × Addr) (v : LatestPriceE) : Store :=
  { s with latestPrices := upd s.latestPrices k v }

def setPHL (s : Store) (k : String × Addr × BInt) (v : PoolHistoricalLiquidityE) : Store :=
  { s with phls := upd s.phls k v }

def setSwap (s : Store) (k : String × BInt) (v : SwapE) : Store :=
  { s with swaps := upd s.swaps k v }

def setBatchSwap (s : Store) (k : String) (v : BatchSwapE) : Store :=
  { s with batchSwaps := upd s.batchSwaps k v }

def setJoinExit (s : Store) (k : String × BInt) (v : JoinExitE) : Store :=
  { s with joinExits := upd s.joinExits k v }

def setUser (s : Store) (k : Addr) (v : UserE) : Store :=
  { s with users := upd s.users k v }

def setTradePair (s : Store) (k : String) (v : TradePairE) : Store :=
  { s with tradePairs := upd s.tradePairs k v }

def setTradePairPrice (s : Store) (k : String × BInt) (v : TradePairPriceE) : Store :=
  { s with tradePairPrices := upd s.tradePairPrices k v }

def setUserInternalBalance (s : Store) (k : String) (v : UserInternalBalanceE) : Store :=
  { s with userInternalBalances := upd s.userInternalBalances k v }

def setInvestment (s : Store) (k : String × Addr × Addr) (v : InvestmentE) : Store :=
  { s with investments := upd s.investments k v }

def addEffect (s : Store) (e : Effect) : Store :=
  { s with effects := s.effects ++ [e] }

/-! ### Decimal and token-metadata helpers -/

/-- Modelled from the spec: the decimal/scale utility converting an integer
on-chain amount to a human-scale decimal value given a per-token decimal
count (the helper module defining scaleDown is not among the provided
sources). -/
def scaleDown (amount : BInt) (decimals : ℕ) : Dec :=
  (amount : ℚ) / (10 ^ decimals : ℚ)

/-- Modelled from the spec: tokenToDecimal performs the same fixed-point
conversion as scaleDown. -/
def tokenToDecimal (amount : BInt) (decimals : ℕ) : Dec :=
  (amount : ℚ) / (10 ^ decimals : ℚ)

/-- Modelled from the spec: the token metadata collaborator returns the
decimal count and symbol for a token address; an unknown token falls back
to the default of 18 decimals. -/
def getToken (s : Store) (a : Addr) : TokenE :=
  (s.tokens a).getD { decimals := 18, symbol := "" }

def getTokenDecimals (s : Store) (a : Addr) : ℕ :=
  (getToken s a).decimals

/-- Modelled from the spec: getUser loads or lazily creates the user
record with zeroed totals. -/
def getUser (s : Store) (a : Addr) : UserE :=
  (s.users a).getD { totalSwapVolume := 0, totalSwapFee := 0, totalSwapCount := 0 }

/-- Modelled from the spec: ensure the user record exists in the store
(the source calls getUser for its creation side effect). -/
def getUserStore (s : Store) (a : Addr) : Store :=
  match s.users a with
  | some _ => s
  | none => setUser s a { totalSwapVolume := 0, totalSwapFee := 0, totalSwapCount := 0 }

/-! ### Pricing module (embedded from the pricing source file) -/

def isPricingAsset (cfg : Config) (asset : Addr) : Bool :=
  cfg.PRICING_ASSETS.any (fun pa => pa == asset)

def isUSDStable (cfg : Config) (asset : Addr) : Bool :=
  cfg.USD_STABLE_ASSETS.any (fun pa => pa == asset)

/-- The per-token loop of updatePoolLiquidity.  It threads the running
pool value and the store (LatestPrice rows may be refreshed along the
way); a missing PoolToken record makes the source trap on a null
dereference, modelled as none. -/
def tokenLoop (poolId : String) (block : BInt) (pricingAsset : Addr) :
    List Addr → Dec → Store → Option (Dec × Store)
  | [], poolValue, st => some (poolValue, st)
  | tokenAddress :: rest, poolValue, st =>
    match st.poolTokens (poolId, tokenAddress) with
    | none => none
    | some poolToken =>
      if tokenAddress = pricingAsset then
        tokenLoop poolId block pricingAsset rest (poolValue + poolToken.balance) st
      else
        match st.tokenPrices (poolId, tokenAddress, pricingAsset, block) with
        | some tokenPrice =>
          let latestPrice : LatestPriceE :=
            { asset := tokenAddress, pricingAsset := pricingAsset,
              price := tokenPrice.price, block := block, poolId := poolId }
          let st1 := setLatestPrice st (tokenAddress, pricingAsset) latestPrice
          tokenLoop poolId block pricingAsset rest
            (poolValue + tokenPrice.price * poolToken.balance) st1
        | none =>
          match st.latestPrices (tokenAddress, pricingAsset) with
          | some latestPrice =>
            tokenLoop poolId block pricingAsset rest
              (poolValue + latestPrice.price * poolToken.balance) st
          | none => tokenLoop poolId block pricingAsset rest poolValue st

/-- The value the source assigns to the local newPoolLiquidity variable in
poolLiquidityInUSD before the zero fallback of the return statement: the
variable stays unassigned (null) when the pricing asset is not USD-stable
and neither the USDC nor the DAI LatestPrice row exists. -/
def poolLiquidityInUSDOpt (cfg : Config) (s : Store) (poolValue : Dec) (pricingAsset : Addr) :
    Option Dec :=
  if isUSDStable cfg pricingAsset then some poolValue
  else
    match s.latestPrices (pricingAsset, cfg.USDC) with
    | some pricingAssetInUSD => some (poolValue * pricingAssetInUSD.price)
    | none =>
      match s.latestPrices (pricingAsset, cfg.DAI) with
      | some pricingAssetInUSD => some (poolValue * pricingAssetInUSD.price)
      | none => none

/-- poolLiquidityInUSD from the pricing source: the return statement reads
newPoolLiquidity with a BigDecimal zero fallback, so a missing USD route
yields the number zero. -/
def poolLiquidityInUSD (cfg : Config) (s : Store) (poolValue : Dec) (pricingAsset : Addr) :
    Dec :=
  (poolLiquidityInUSDOpt cfg s poolValue pricingAsset).getD 0

/-- updatePoolLiquidity(poolId, block, pricingAsset) embedded from the
pricing source file: guards on pool existence, token count and token list;
accumulates the pool value over the token list; persists the
PoolHistoricalLiquidity snapshot; then, when the previously stored pool
liquidity is present, applies the liquidity delta to the Balancer
singleton and overwrites the pool's liquidity. -/
def updatePoolLiquidity (cfg : Config) (s : Store) (poolId : String) (block : BInt)
    (pricingAsset : Addr) : Option Store :=
  match s.pools poolId with
  | none => some s
  | some pool =>
    if pool.tokensCount < 2 then some s
    else if pool.tokensList.length = 0 then some s
    else
      match tokenLoop poolId block pricingAsset pool.tokensList 0 s with
      | none => none
      | some (poolValue, st) =>
        let st1 := setPHL st (poolId, pricingAsset, block) { poolLiquidity := poolValue }
        let newPoolLiquidity := poolLiquidityInUSD cfg st1 poolValue pricingAsset
        match pool.liquidity with
        | none => some st1
        | some oldPoolLiquidity =>
          match st1.balancer with
          | none => none
          | some vault =>
            let vault1 :=
              { vault with totalLiquidity :=
                  vault.totalLiquidity + (newPoolLiquidity - oldPoolLiquidity) }
            let st2 := { st1 with balancer := some vault1 }
            some (setPool st2 poolId { pool with liquidity := some newPoolLiquidity })

/-! ### The boolean-returning liquidity-recomputation routine -/

/-- Modelled from the spec: valueInUSD(amount, asset) converts a raw token
amount into USD; a USD-stable asset is returned unchanged, otherwise the
LatestPrice row against the primary USD stable (USDC) is used, falling
back to the secondary anchor (DAI), and the result is none when no route
exists yet.  The pricing source file revision provided does not contain
this function, only its caller in the vault mappings. -/
def valueInUSD (cfg : Config) (s : Store) (amount : Dec) (asset : Addr) : Option Dec :=
  if isUSDStable cfg asset then some amount
  else
    match s.latestPrices (asset, cfg.USDC) with
    | some lp => some (amount * lp.price)
    | none =>
      match s.latestPrices (asset, cfg.DAI) with
      | some lp => some (amount * lp.price)
      | none => none

/-- Modelled from the spec: the five-argument
updatePoolLiquidity(poolId, block, pricingAsset, timestamp, actor) -> bool
called by the vault handlers; its defining source file is not among the
provided sources (only its callers are).  It runs the same per-token
valuation loop and PoolHistoricalLiquidity snapshot as the embedded
three-argument routine, then converts the pool value to USD with the
USD-stable short-circuit; only when that conversion succeeds does it apply
the liquidity delta to the Balancer singleton and overwrite the pool's
liquidity, and it returns whether the conversion succeeded. -/
def updatePoolLiquidityWithSuccess (cfg : Config) (s : Store) (poolId : String)
    (block : BInt) (pricingAsset : Addr) (timestamp : BInt) (actor : Addr) :
    Option (Bool × Store) :=
  match s.pools poolId with
  | none => some (false, s)
  | some pool =>
    if pool.tokensCount < 2 then some (false, s)
    else if pool.tokensList.length = 0 then some (false, s)
    else
      match tokenLoop poolId block pricingAsset pool.tokensList 0 s with
      | none => none
      | some (poolValue, st) =>
        let st1 := setPHL st (poolId, pricingAsset, block) { poolLiquidity := poolValue }
        match poolLiquidityInUSDOpt cfg st1 poolValue pricingAsset with
        | none => some (false, st1)
        | some newLiquidity =>
          match st1.balancer with
          | none => none
          | some vault =>
            let oldLiquidity := pool.liquidity.getD 0
            let vault1 :=
              { vault with totalLiquidity :=
                  vault.totalLiquidity + (newLiquidity - oldLiquidity) }
            let st2 := { st1 with balancer := some vault1 }
            some (true, setPool st2 poolId { pool with liquidity := some newLiquidity })

/-- The pricing-asset loop shared by the join and exit handlers: iterate
the pool's token list in order, call updatePoolLiquidityWithSuccess for
each token that is a pricing asset, and break out at the first invocation
that returns true.  The second component counts the successful
invocations performed. -/
def tryUpdates (cfg : Config) (poolId : String) (block : BInt) (timestamp : BInt)
    (actor : Addr) : List Addr → Store → Option (Store × ℕ)
  | [], s => some (s, 0)
  | tokenAddress :: rest, s =>
    if isPricingAsset cfg tokenAddress then
      match updatePoolLiquidityWithSuccess cfg s poolId block tokenAddress timestamp actor with
      | none => none
      | some (success, s1) =>
        if success then some (s1, 1)
        else tryUpdates cfg poolId block timestamp actor rest s1
    else tryUpdates cfg poolId block timestamp actor rest s

/-! ### Events -/

structure PoolBalanceChangedEvent where
  poolId : String
  liquidityProvider : Addr
  deltas : List BInt
  blockNumber : BInt
  blockTimestamp : BInt
  logIndex : BInt
  transactionHash : String
  deriving DecidableEq

structure SwapEventData where
  poolId : String
  tokenIn : Addr
  tokenOut : Addr
  amountIn : BInt
  amountOut : BInt
  blockNumber : BInt
  blockTimestamp : BInt
  logIndex : BInt
  transactionHash : String
  txFrom : Addr
  deriving DecidableEq

structure PoolBalanceManagedEvent where
  poolId : String
  token : Addr
  assetManager : Addr
  managedDelta : BInt
  blockTimestamp : BInt
  deriving DecidableEq

structure InternalBalanceChangedEvent where
  user : Addr
  token : Addr
  delta : BInt
  deriving DecidableEq

structure PoolCreatedEvent where
  poolId : String
  swapFee : BInt
  poolType : String
  tokens : List Addr
  blockTimestamp : BInt
  poolAddress : Addr
  transactionHash : String
  deriving DecidableEq

/-! ### Internal balances handler -/

def handleInternalBalanceChange (ev : InternalBalanceChangedEvent) (s0 : Store) :
    Option Store :=
  let s := getUserStore s0 ev.user
  let balanceId := ev.user ++ ev.token
  let userBalance := (s.userInternalBalances balanceId).getD
    { userAddress := ev.user, token := ev.token, balance := 0 }
  let transferAmount := tokenToDecimal ev.delta (getTokenDecimals s ev.token)
  some (setUserInternalBalance s balanceId
    { userBalance with balance := userBalance.balance + transferAmount })

/-! ### Deposits and withdrawals -/

/-- The first loop of handlePoolJoined: the human-scaled join amounts,
positionally aligned with the pool's token list (an index beyond the
deltas array traps). -/
def joinAmountsLoop (s : Store) : List Addr → List BInt → Option (List Dec)
  | [], _ => some []
  | _ :: _, [] => none
  | tokenAddress :: restTokens, amount :: restAmounts =>
    (joinAmountsLoop s restTokens restAmounts).map
      (fun rest => scaleDown amount (getToken s tokenAddress).decimals :: rest)

/-- The balance-update loop of handlePoolJoined: each delta is added to
the corresponding PoolToken balance; a missing PoolToken record is the
thrown poolToken-not-found error, modelled as none. -/
def joinBalanceLoop (poolId : String) : List Addr → List BInt → Store → Option Store
  | [], _, s => some s
  | _ :: _, [], _ => none
  | tokenAddress :: restTokens, amount :: restAmounts, s =>
    match s.poolTokens (poolId, tokenAddress) with
    | none => none
    | some poolToken =>
      let tokenAmountIn := tokenToDecimal amount (getToken s tokenAddress).decimals
      let s1 := setPoolToken s (poolId, tokenAddress)
        { poolToken with balance := poolToken.balance + tokenAmountIn }
      joinBalanceLoop poolId restTokens restAmounts s1

/-- The balance-update loop of handlePoolExited: each delta is negated
before scaling and the scaled amount subtracted from the PoolToken
balance. -/
def exitBalanceLoop (poolId : String) : List Addr → List BInt → Store → Option Store
  | [], _, s => some s
  | _ :: _, [], _ => none
  | tokenAddress :: restTokens, amount :: restAmounts, s =>
    match s.poolTokens (poolId, tokenAddress) with
    | none => none
    | some poolToken =>
      let tokenAmountOut := tokenToDecimal (-amount) (getToken s tokenAddress).decimals
      let s1 := setPoolToken s (poolId, tokenAddress)
        { poolToken with balance := poolToken.balance - tokenAmountOut }
      exitBalanceLoop poolId restTokens restAmounts s1

def handlePoolJoined (cfg : Config) (ev : PoolBalanceChangedEvent) (s : Store) :
    Option Store :=
  match s.pools ev.poolId with
  | none => some s
  | some pool =>
    let tokenAddresses := pool.tokensList
    match joinAmountsLoop s tokenAddresses ev.deltas with
    | none => none
    | some joinAmounts =>
      let join : JoinExitE :=
        { type' := .Join, amounts := joinAmounts, pool := ev.poolId,
          user := ev.liquidityProvider, sender := ev.liquidityProvider,
          timestamp := ev.blockTimestamp, tx := ev.transactionHash }
      let s1 := setJoinExit s (ev.transactionHash, ev.logIndex) join
      match joinBalanceLoop ev.poolId tokenAddresses ev.deltas s1 with
      | none => none
      | some s2 =>
        match tryUpdates cfg ev.poolId ev.blockNumber ev.blockTimestamp
            ev.liquidityProvider tokenAddresses s2 with
        | none => none
        | some (s3, _) =>
          some (addEffect s3 (.poolSnapshot ev.poolId ev.blockTimestamp))

def handlePoolExited (cfg : Config) (ev : PoolBalanceChangedEvent) (s : Store) :
    Option Store :=
  match s.pools ev.poolId with
  | none => some s
  | some pool =>
    let tokenAddresses := pool.tokensList
    let s0 := setPool s ev.poolId pool
    match joinAmountsLoop s0 tokenAddresses (ev.deltas.map (fun a => -a)) with
    | none => none
    | some exitAmounts =>
      let exit : JoinExitE :=
        { type' := .Exit, amounts := exitAmounts, pool := ev.poolId,
          user := ev.liquidityProvider, sender := ev.liquidityProvider,
          timestamp := ev.blockTimestamp, tx := ev.transactionHash }
      let s1 := setJoinExit s0 (ev.transactionHash, ev.logIndex) exit
      match exitBalanceLoop ev.poolId tokenAddresses ev.deltas s1 with
      | none => none
      | some s2 =>
        match tryUpdates cfg ev.poolId ev.blockNumber ev.blockTimestamp
            ev.liquidityProvider tokenAddresses s2 with
        | none => none
        | some (s3, _) =>
          some (addEffect s3 (.poolSnapshot ev.poolId ev.blockTimestamp))

/-- handleBalanceChange dispatches on the sign of the summed deltas: an
empty deltas array returns immediately, a strictly positive total is a
join, anything else an exit. -/
def handleBalanceChange (cfg : Config) (ev : PoolBalanceChangedEvent) (s : Store) :
    Option Store :=
  if ev.deltas.length = 0 then some s
  else
    let total : BInt := ev.deltas.foldl (fun sum amount => sum + amount) 0
    if total > 0 then handlePoolJoined cfg ev s
    else handlePoolExited cfg ev s

/-! ### Investments -/

def handleBalanceManage (ev : PoolBalanceManagedEvent) (s : Store) : Option Store :=
  match s.pools ev.poolId with
  | none => some s
  | some _ =>
    match s.poolTokens (ev.poolId, ev.token) with
    | none => none
    | some poolToken =>
      let managedDeltaAmount := tokenToDecimal ev.managedDelta (getToken s ev.token).decimals
      let s1 := setPoolToken s (ev.poolId, ev.token)
        { poolToken with invested := poolToken.invested + managedDeltaAmount }
      let investment : InvestmentE :=
        { assetManagerAddress := ev.assetManager, amount := managedDeltaAmount,
          timestamp := ev.blockTimestamp }
      some (setInvestment s1 (ev.poolId, ev.token, ev.assetManager) investment)

/-! ### Swaps -/

/-- Modelled from the spec: the pools helper deciding whether a pool's
type has time-varying weights (liquidity-bootstrapping and investment
pools). -/
def isVariableWeightPool (pool : Pool) : Bool :=
  pool.poolType == some "LiquidityBootstrapping" || pool.poolType == some "Investment"

/-- Modelled from the spec: trade pairs are keyed by the unordered,
lexicographically canonicalized pair of token addresses. -/
def getTradePairId (a b : Addr) : String :=
  if a ≤ b then a ++ "-" ++ b else b ++ "-" ++ a

/-- Modelled from the spec: load-or-create of the TradePair record, with
the lexicographically smaller address as token0. -/
def getTradePair (s : Store) (a b : Addr) : TradePairE :=
  match s.tradePairs (getTradePairId a b) with
  | some tp => tp
  | none =>
    if a ≤ b then { token0 := a, token1 := b, totalSwapVolume := 0, totalSwapFee := 0 }
    else { token0 := b, token1 := a, totalSwapVolume := 0, totalSwapFee := 0 }

/-- Modelled from the spec: load-or-create of the BatchSwap keyed by the
transaction hash; a fresh batch records the current swap's tokens and
starts with zero cumulative amounts and an empty swap list (the spec's
aggregation example forces the zero initialization: the first swap's
inbound amount is accumulated by the handler itself). -/
def getBatchSwap (s : Store) (txHash : String) (sw : SwapE) : BatchSwapE :=
  match s.batchSwaps txHash with
  | some b => b
  | none =>
    { tokenIn := sw.tokenIn, tokenAmountIn := 0, tokenOut := sw.tokenOut,
      tokenAmountOut := 0, swaps := [], matchingTokens := false,
      user := sw.userAddress }

/-- The loop over the batch's already-recorded swap ids summing the
outbound amounts whose outbound token equals the current swap's outbound
token; a dangling swap id traps on the null load. -/
def batchOutSum (s : Store) (tokenOutAddress : Addr) : List (String × BInt) → Option Dec
  | [] => some 0
  | id :: rest =>
    match s.swaps id with
    | none => none
    | some sw =>
      (batchOutSum s tokenOutAddress rest).map
        (fun r => (if sw.tokenOut = tokenOutAddress then sw.tokenAmountOut else 0) + r)

/-- The batch-swap aggregation block of handleSwapEvent: accumulate the
inbound amount when the batch's recorded inbound token matches, recompute
the outbound total over the already-recorded swaps plus the current one,
detect matching batch tokens, and only then append the current swap's id
to the batch's swap list. -/
def batchSwapStep (s : Store) (txHash : String) (swapId : String × BInt) (sw : SwapE) :
    Option (Store × BatchSwapE) :=
  let b0 := getBatchSwap s txHash sw
  let b1 :=
    if b0.tokenIn = sw.tokenIn then
      { b0 with tokenAmountIn := b0.tokenAmountIn + sw.tokenAmountIn }
    else b0
  match batchOutSum s sw.tokenOut b1.swaps with
  | none => none
  | some priorOut =>
    let b2 := { b1 with tokenOut := sw.tokenOut, tokenAmountOut := sw.tokenAmountOut + priorOut }
    let b3 := if b2.tokenIn = b2.tokenOut then { b2 with matchingTokens := true } else b2
    let b4 := { b3 with swaps := b3.swaps ++ [swapId], user := sw.userAddress }
    some (setBatchSwap s txHash b4, b4)

/-- The locals of handleSwapEvent that the steps after the zero-amount
guard still need. -/
structure SwapLocals where
  tokenAmountIn : Dec
  tokenAmountOut : Dec
  batchTokenIn : Addr
  batchTokenOut : Addr
  swapValueUSD : Dec
  swapFeesUSD : Dec
  deriving DecidableEq

/-- Steps of handleSwapEvent up to and including the trade-pair
volume/fee statistics (everything before the zero-amount guard) once the
pool record has been resolved: swap record, batch-swap aggregation, pool /
vault / user counters, pool token balances, and the collaborator
statistics calls.  The value none models a trap (missing pool token,
dangling batch swap id or missing Balancer singleton). -/
def swapBookkeepingCore (cfg : Config) (ev : SwapEventData) (pool : Pool) (s : Store) :
    Option (Store × SwapLocals) :=
    let swapId := (ev.transactionHash, ev.logIndex)
    match s.poolTokens (ev.poolId, ev.tokenIn), s.poolTokens (ev.poolId, ev.tokenOut) with
    | some poolTokenIn, some poolTokenOut =>
      let tokenIn := getToken s ev.tokenIn
      let tokenOut := getToken s ev.tokenOut
      let tokenAmountIn := scaleDown ev.amountIn tokenIn.decimals
      let tokenAmountOut := scaleDown ev.amountOut tokenOut.decimals
      let swap : SwapE :=
        { tokenIn := ev.tokenIn, tokenInSym := tokenIn.symbol,
          tokenAmountIn := tokenAmountIn,
          tokenOut := ev.tokenOut, tokenOutSym := tokenOut.symbol,
          tokenAmountOut := tokenAmountOut,
          poolId := ev.poolId, userAddress := ev.txFrom,
          timestamp := ev.blockTimestamp, tx := ev.transactionHash }
      let s1 := setSwap s swapId swap
      match batchSwapStep s1 ev.transactionHash swapId swap with
      | none => none
      | some (s2, batchSwap) =>
        let swapValueUSD :=
          ((valueInUSD cfg s2 tokenAmountOut ev.tokenOut).orElse
            (fun _ => valueInUSD cfg s2 tokenAmountIn ev.tokenIn)).getD 0
        let swapFeesUSD := swapValueUSD * pool.swapFee
        let pool1 :=
          { pool with
            swapsCount := pool.swapsCount + 1,
            totalSwapVolume := pool.totalSwapVolume + swapValueUSD,
            totalSwapFee := pool.totalSwapFee + swapFeesUSD }
        let s3 := setPool s2 ev.poolId pool1
        match s3.balancer with
        | none => none
        | some vault =>
          let vault1 :=
            { vault with
              totalSwapVolume := vault.totalSwapVolume + swapValueUSD,
              totalSwapFee := vault.totalSwapFee + swapFeesUSD,
              totalSwapCount := vault.totalSwapCount + 1 }
          let s4 := { s3 with balancer := some vault1 }
          let s5 := addEffect s4 (.balancerSnapshot "2" ev.blockTimestamp)
          let s6 := setPoolToken s5 (ev.poolId, ev.tokenIn)
            { poolTokenIn with balance := poolTokenIn.balance + tokenAmountIn }
          let s7 := setPoolToken s6 (ev.poolId, ev.tokenOut)
            { poolTokenOut with balance := poolTokenOut.balance - tokenAmountOut }
          let s8 := addEffect (addEffect s7 (.uptickSwapsForToken ev.tokenIn))
            (.uptickSwapsForToken ev.tokenOut)
          let s9 := addEffect (addEffect s8
            (.updateTokenBalances ev.tokenIn swapValueUSD tokenAmountIn 0))
            (.updateTokenBalances ev.tokenOut swapValueUSD tokenAmountOut 1)
          let user := getUser s9 ev.txFrom
          let user1 :=
            { user with
              totalSwapVolume := user.totalSwapVolume + swapValueUSD,
              totalSwapFee := user.totalSwapFee + swapFeesUSD,
              totalSwapCount := user.totalSwapCount + 1 }
          let s10 := addEffect (setUser s9 ev.txFrom user1)
            (.userSnapshot ev.txFrom ev.blockTimestamp)
          let s11 :=
            if batchSwap.tokenIn ≠ batchSwap.tokenOut then
              let tradePair := getTradePair s10 ev.tokenIn ev.tokenOut
              let tradePair1 :=
                { tradePair with
                  totalSwapVolume := tradePair.totalSwapVolume + swapValueUSD,
                  totalSwapFee := tradePair.totalSwapFee + swapFeesUSD }
              let sA := setTradePair s10 (getTradePairId ev.tokenIn ev.tokenOut) tradePair1
              addEffect sA (.tradePairSnapshot (getTradePairId ev.tokenIn ev.tokenOut)
                ev.blockTimestamp)
            else s10
          some (s11,
            { tokenAmountIn := tokenAmountIn,
              tokenAmountOut := tokenAmountOut,
              batchTokenIn := batchSwap.tokenIn,
              batchTokenOut := batchSwap.tokenOut,
              swapValueUSD := swapValueUSD, swapFeesUSD := swapFeesUSD })
    | _, _ => none

/-- Steps of handleSwapEvent up to and including the trade-pair
volume/fee statistics: the user record is ensured, the pool record is
resolved (a missing pool yields no writes at all, encoded as some none),
weight-refreshing pool types trigger the weight update collaborator, and
the core bookkeeping runs. -/
def swapBookkeeping (cfg : Config) (ev : SwapEventData) (s0 : Store) :
    Option (Option (Store × SwapLocals)) :=
  let s := getUserStore s0 ev.txFrom
  match s.pools ev.poolId with
  | none => some none
  | some pool =>
    let sw := if isVariableWeightPool pool then addEffect s (.updatePoolWeights ev.poolId)
      else s
    (swapBookkeepingCore cfg ev pool sw).map some

/-- The trade-pair exchange-rate update after the zero-amount guard
(within the distinct-batch-tokens interpretation the design documents for
the out-of-scope trade pair binding): the per-timestamp TradePairPrice
row is written when the inbound token is one of the pair's two tokens. -/
def tradePairPriceStep (ev : SwapEventData) (l : SwapLocals) (s0 : Store) : Store :=
  if l.batchTokenIn ≠ l.batchTokenOut then
    let tradePair := getTradePair s0 ev.tokenIn ev.tokenOut
    let price :=
      if ev.tokenIn = tradePair.token0 then some (l.tokenAmountOut / l.tokenAmountIn)
      else if ev.tokenIn = tradePair.token1 then some (l.tokenAmountIn / l.tokenAmountOut)
      else none
    match price with
    | some p =>
      setTradePairPrice s0 (getTradePairId ev.tokenIn ev.tokenOut, ev.blockTimestamp)
        { price := p }
    | none => s0
  else s0

/-- The immutable TokenPrice capture for the inbound swap leg when it is a
pricing asset, together with the liquidity recomputation for that leg. -/
def captureIn (cfg : Config) (ev : SwapEventData) (l : SwapLocals) (s1 : Store) :
    Option Store :=
  if isPricingAsset cfg ev.tokenIn then
    let tokenPrice : TokenPriceE :=
      { price := l.tokenAmountIn / l.tokenAmountOut, amount := l.tokenAmountIn,
        timestamp := ev.blockTimestamp }
    let s2 := setTokenPrice s1 (ev.poolId, ev.tokenOut, ev.tokenIn, ev.blockNumber) tokenPrice
    (updatePoolLiquidityWithSuccess cfg s2 ev.poolId ev.blockNumber ev.tokenIn
      ev.blockTimestamp ev.txFrom).map (fun r => r.2)
  else some s1

/-- The immutable TokenPrice capture for the outbound swap leg when it is
a pricing asset, together with the liquidity recomputation for that
leg. -/
def captureOut (cfg : Config) (ev : SwapEventData) (l : SwapLocals) (s3 : Store) :
    Option Store :=
  if isPricingAsset cfg ev.tokenOut then
    let tokenPrice : TokenPriceE :=
      { price := l.tokenAmountOut / l.tokenAmountIn, amount := l.tokenAmountOut,
        timestamp := ev.blockTimestamp }
    let s4 := setTokenPrice s3 (ev.poolId, ev.tokenIn, ev.tokenOut, ev.blockNumber) tokenPrice
    (updatePoolLiquidityWithSuccess cfg s4 ev.poolId ev.blockNumber ev.tokenOut
      ev.blockTimestamp ev.txFrom).map (fun r => r.2)
  else some s3

/-- Steps of handleSwapEvent after the zero-amount guard: the trade-pair
exchange-rate update, the TokenPrice capture with liquidity recomputation
for each swap leg that is a pricing asset, and the final snapshot
collaborator calls. -/
def swapTail (cfg : Config) (ev : SwapEventData) (l : SwapLocals) (s0 : Store) :
    Option Store :=
  match captureIn cfg ev l (tradePairPriceStep ev l s0) with
  | none => none
  | some s3 =>
    match captureOut cfg ev l s3 with
    | none => none
    | some s5 =>
      let s6 := addEffect s5 (.poolSnapshot ev.poolId ev.blockTimestamp)
      some (addEffect s6
        (.swapSnapshot ev.poolId ev.blockTimestamp l.swapValueUSD l.swapFeesUSD))

def handleSwapEvent (cfg : Config) (ev : SwapEventData) (s : Store) : Option Store :=
  match swapBookkeeping cfg ev s with
  | none => none
  | some none => some (getUserStore s ev.txFrom)
  | some (some (s1, l)) =>
    if l.tokenAmountOut = 0 ∨ l.tokenAmountIn = 0 then some s1
    else swapTail cfg ev l s1

/-! ### Pool factory -/

/-- Modelled from the spec: newPoolEntity creates a blank pool record; the
pool's USD liquidity is absent before the first successful computation. -/
def newPoolEntity : Pool :=
  { tokensList := [], tokensCount := 0, liquidity := none, swapsCount := 0,
    totalSwapVolume := 0, totalSwapFee := 0, swapFee := 0, poolType := none,
    createTime := 0 }

def findOrInitializeVault (s : Store) : BalancerE :=
  match s.balancer with
  | some vault => vault
  | none =>
    { poolCount := 0, totalLiquidity := 0, totalSwapVolume := 0, totalSwapFee := 0,
      totalSwapCount := 0 }

/-- handleNewPool from the pool factory mappings: when no Pool record
exists for the pool id, create and save it, then increment the (lazily
created) Balancer singleton's poolCount and take a protocol snapshot; when
the Pool record already exists nothing is written. -/
def handleNewPool (ev : PoolCreatedEvent) (s : Store) : Store :=
  match s.pools ev.poolId with
  | some _ => s
  | none =>
    let pool :=
      { newPoolEntity with
        swapFee := scaleDown ev.swapFee 18,
        createTime := ev.blockTimestamp }
    let s1 := createPool s ev.poolId pool
    let vault := findOrInitializeVault s1
    let s2 := { s1 with balancer := some { vault with poolCount := vault.poolCount + 1 } }
    addEffect s2 (.balancerSnapshot "2" ev.blockTimestamp)

/-- The loop of the factory handlers creating the PoolToken records for a
new pool's token list (modelled from the spec: createPoolTokenEntity
writes a zero-balance PoolToken). -/
def createPoolTokens (poolId : String) : List Addr → Store → Store
  | [], s => s
  | t :: rest, s =>
    createPoolTokens poolId rest (setPoolToken s (poolId, t) { balance := 0, invested := 0 })

/-- createWeightedLikePool and its stable/element/linear/gyro siblings:
handleNewPool, then the pool type, token list and PoolToken records are
written on the (new or already existing) pool record. -/
def createWeightedLikePool (ev : PoolCreatedEvent) (s : Store) : Store :=
  let s1 := handleNewPool ev s
  match s1.pools ev.poolId with
  | none => s1
  | some pool =>
    let pool1 :=
      { pool with
        poolType := some ev.poolType, tokensList := ev.tokens,
        tokensCount := ev.tokens.length }
    createPoolTokens ev.poolId ev.tokens (setPool s1 ev.poolId pool1)

/-! ### The event system -/

inductive VaultEvent
  | poolCreated (ev : PoolCreatedEvent)
  | balanceChanged (ev : PoolBalanceChangedEvent)
  | swap (ev : SwapEventData)
  | balanceManaged (ev : PoolBalanceManagedEvent)
  | internalBalanceChanged (ev : InternalBalanceChangedEvent)
  | liquidityUpdate (poolId : String) (block : BInt) (pricingAsset : Addr)
  deriving DecidableEq

/-- One handler invocation.  A handler that traps (none) has all its
writes discarded by the indexing runtime: the store is left as it was
(spec concurrency model: a handler either fully completes its writes or
the event's writes are discarded). -/
def applyEvent (cfg : Config) (e : VaultEvent) (s : Store) : Store :=
  match e with
  | .poolCreated ev => createWeightedLikePool ev s
  | .balanceChanged ev => (handleBalanceChange cfg ev s).getD s
  | .swap ev => (handleSwapEvent cfg ev s).getD s
  | .balanceManaged ev => (handleBalanceManage ev s).getD s
  | .internalBalanceChanged ev => (handleInternalBalanceChange ev s).getD s
  | .liquidityUpdate poolId block pricingAsset =>
    (updatePoolLiquidity cfg s poolId block pricingAsset).getD s

def runEvents (cfg : Config) (evs : List VaultEvent) (s : Store) : Store :=
  evs.foldl (fun st e => applyEvent cfg e st) s

def runNewPools (evs : List PoolCreatedEvent) (s : Store) : Store :=
  evs.foldl (fun st ev => handleNewPool ev st) s

/-! ### Specification-side functions (used only in theorem statements) -/

/-- The direct summation over all Pool records of their liquidity (an
absent liquidity counts as zero). -/
def sumLiq (s : Store) : Dec :=
  (s.poolIds.map (fun pid => ((s.pools pid).bind Pool.liquidity).getD 0)).sum

/-- The Balancer singleton's totalLiquidity (zero while the singleton does
not exist yet). -/
def totalLiq (s : Store) : Dec :=
  (s.balancer.map BalancerE.totalLiquidity).getD 0

/-- Store well-formedness: the pool-id index is duplicate free and lists
exactly the pool ids with a Pool record. -/
def Wf (s : Store) : Prop :=
  s.poolIds.Nodup ∧ ∀ pid, (s.pools pid).isSome = true ↔ pid ∈ s.poolIds

/-- The claimed global invariant: delta-accumulated totalLiquidity equals
the direct summation over all pools. -/
def LiquidityInvariant (s : Store) : Prop :=
  totalLiq s = sumLiq s

/-- The inductive invariant carried through the event replay: store
well-formedness together with the liquidity equation. -/
def LiqInv (s : Store) : Prop :=
  Wf s ∧ totalLiq s = sumLiq s

/-- The USD-route condition under which the boolean liquidity update
reports success: the pricing asset is USD-stable or has a LatestPrice row
against one of the two USD anchors. -/
def usdRoute (cfg : Config) (s : Store) (pricingAsset : Addr) : Prop :=
  isUSDStable cfg pricingAsset = true
    ∨ (s.latestPrices (pricingAsset, cfg.USDC)).isSome = true
    ∨ (s.latestPrices (pricingAsset, cfg.DAI)).isSome = true

/-- The value a single token contributes to the pool value during
updatePoolLiquidity, read off the pre-state: the pricing asset itself
contributes its balance; any other token contributes price times balance
with the price preferring the TokenPrice observed at exactly this block
and falling back to the LatestPrice cache; no price means zero. -/
def contribution (s : Store) (poolId : String) (block : BInt) (pricingAsset : Addr)
    (t : Addr) : Dec :=
  match s.poolTokens (poolId, t) with
  | none => 0
  | some pt =>
    if t = pricingAsset then pt.balance
    else
      match s.tokenPrices (poolId, t, pricingAsset, block) with
      | some tp => tp.price * pt.balance
      | none =>
        match s.latestPrices (t, pricingAsset) with
        | some lp => lp.price * pt.balance
        | none => 0

/-! ### Concrete fixtures for witnesses and counterexamples -/

def blankPool : Pool :=
  { tokensList := [], tokensCount := 0, liquidity := none, swapsCount := 0,
    totalSwapVolume := 0, totalSwapFee := 0, swapFee := 0, poolType := none,
    createTime := 0 }

def blankVault : BalancerE :=
  { poolCount := 1, totalLiquidity := 0, totalSwapVolume := 0, totalSwapFee := 0,
    totalSwapCount := 0 }

/-- A configuration with no pricing assets (joins, exits and swaps then
perform no liquidity updates). -/
def cfgPlain : Config :=
  { PRICING_ASSETS := [], USD_STABLE_ASSETS := [], USDC := "usdc", DAI := "dai" }

/-- Fixture for the join/exit scenarios: pool P over tokens X, Y with
balances 100 and 200, both tokens with 0 decimals. -/
def storeJoin : Store :=
  let s := createPool emptyStore "P" { blankPool with tokensList := ["X", "Y"], tokensCount := 2 }
  let s := setPoolToken s ("P", "X") { balance := 100, invested := 0 }
  let s := setPoolToken s ("P", "Y") { balance := 200, invested := 0 }
  let s := { s with balancer := some blankVault }
  let toks := upd (upd s.tokens "X" { decimals := 0, symbol := "X" }) "Y" { decimals := 0, symbol := "Y" }
  { s with tokens := toks }

def evJoin : PoolBalanceChangedEvent :=
  { poolId := "P", liquidityProvider := "u", deltas := [10, 20], blockNumber := 1,
    blockTimestamp := 5, logIndex := 0, transactionHash := "T" }

def evExit : PoolBalanceChangedEvent :=
  { poolId := "P", liquidityProvider := "u", deltas := [-5, -5], blockNumber := 1,
    blockTimestamp := 6, logIndex := 1, transactionHash := "T2" }

/-- Fixture for the empty-deltas counterexample: a known pool with an
empty token list, so that an exit would record an empty JoinExit. -/
def storeEmptyDeltas : Store :=
  createPool emptyStore "P" blankPool

def evEmptyDeltas : PoolBalanceChangedEvent :=
  { poolId := "P", liquidityProvider := "u", deltas := [], blockNumber := 1,
    blockTimestamp := 5, logIndex := 2, transactionHash := "T3" }

/-- Fixture for the batch-swap example: pool P over tokens A and B. -/
def storeBatch : Store :=
  let s := createPool emptyStore "P" { blankPool with tokensList := ["A", "B"], tokensCount := 2 }
  let s := setPoolToken s ("P", "A") { balance := 1000, invested := 0 }
  let s := setPoolToken s ("P", "B") { balance := 1000, invested := 0 }
  let s := { s with balancer := some blankVault }
  let toks := upd (upd s.tokens "A" { decimals := 0, symbol := "A" }) "B" { decimals := 0, symbol := "B" }
  { s with tokens := toks }

def evSwap1 : SwapEventData :=
  { poolId := "P", tokenIn := "A", tokenOut := "B", amountIn := 10, amountOut := 20,
    blockNumber := 1, blockTimestamp := 5, logIndex := 0, transactionHash := "T", txFrom := "u" }

def evSwap2 : SwapEventData :=
  { poolId := "P", tokenIn := "B", tokenOut := "A", amountIn := 15, amountOut := 9,
    blockNumber := 1, blockTimestamp := 5, logIndex := 1, transactionHash := "T", txFrom := "u" }

/-- Config where A, B, C are all pricing assets and USD-stable. -/
def cfgABC : Config :=
  { PRICING_ASSETS := ["A", "B", "C"], USD_STABLE_ASSETS := ["A", "B", "C"],
    USDC := "A", DAI := "A" }

/-- Fixture for the swap-handler call-structure counterexample: pool P
over pricing assets A, B, C. -/
def storeABC : Store :=
  let s := createPool emptyStore "P"
    { blankPool with tokensList := ["A", "B", "C"], tokensCount := 3, liquidity := some 0 }
  let s := setPoolToken s ("P", "A") { balance := 10, invested := 0 }
  let s := setPoolToken s ("P", "B") { balance := 10, invested := 0 }
  let s := setPoolToken s ("P", "C") { balance := 10, invested := 0 }
  let s := { s with balancer := some blankVault }
  let toks := upd (upd (upd s.tokens "A" { decimals := 0, symbol := "A" }) "B" { decimals := 0, symbol := "B" }) "C" { decimals := 0, symbol := "C" }
  { s with tokens := toks }

def evSwapBC : SwapEventData :=
  { poolId := "P", tokenIn := "B", tokenOut := "C", amountIn := 2, amountOut := 4,
    blockNumber := 7, blockTimestamp := 9, logIndex := 0, transactionHash := "T", txFrom := "u" }

/-- Fixture for the missing-USD-route counterexample: pool P over W and V
with stored liquidity 10 and protocol totalLiquidity 10; no LatestPrice
rows exist at all. -/
def storeNoRoute : Store :=
  let s := createPool emptyStore "P"
    { blankPool with tokensList := ["W", "V"], tokensCount := 2, liquidity := some 10 }
  let s := setPoolToken s ("P", "W") { balance := 5, invested := 0 }
  let s := setPoolToken s ("P", "V") { balance := 5, invested := 0 }
  { s with balancer := some { blankVault with totalLiquidity := 10 } }

/-- Config where only A is a pricing asset (and USD-stable). -/
def cfgA : Config :=
  { PRICING_ASSETS := ["A"], USD_STABLE_ASSETS := ["A"], USDC := "A", DAI := "A" }

/-- Fixture for the zero-amount swap counterexample: pool P over A and B,
A a pricing asset. -/
def storeZeroSwap : Store :=
  let s := createPool emptyStore "P"
    { blankPool with tokensList := ["A", "B"], tokensCount := 2, liquidity := some 0 }
  let s := setPoolToken s ("P", "A") { balance := 50, invested := 0 }
  let s := setPoolToken s ("P", "B") { balance := 50, invested := 0 }
  let s := { s with balancer := some blankVault }
  let toks := upd (upd s.tokens "A" { decimals := 0, symbol := "A" }) "B" { decimals := 0, symbol := "B" }
  { s with tokens := toks }

def evSwapZero : SwapEventData :=
  { poolId := "P", tokenIn := "A", tokenOut := "B", amountIn := 10, amountOut := 0,
    blockNumber := 3, blockTimestamp := 5, logIndex := 0, transactionHash := "T", txFrom := "u" }

def evSwapPos : SwapEventData :=
  { evSwapZero with amountOut := 4 }

/-- The store and locals produced by the bookkeeping phase on the
zero-amount swap fixture (extracted so the early-return theorem can be
instantiated on them). -/
def zeroPair : Store × SwapLocals :=
  ((swapBookkeeping cfgA evSwapZero storeZeroSwap).getD none).getD
    (storeZeroSwap,
      { tokenAmountIn := 0, tokenAmountOut := 0, batchTokenIn := "",
        batchTokenOut := "", swapValueUSD := 0, swapFeesUSD := 0 })

/-- A single concrete swap record for instantiating the batch-swap
aggregation characterization. -/
def swW : SwapE :=
  { tokenIn := "A", tokenInSym := "A", tokenAmountIn := 1, tokenOut := "B",
    tokenOutSym := "B", tokenAmountOut := 2, poolId := "P", userAddress := "u",
    timestamp := 0, tx := "T" }

/-- The batch record the aggregation block produces for swW on the empty
store (the sums are kept unevaluated so the record is definitionally the
one the aggregation computes). -/
def bW : BatchSwapE :=
  { tokenIn := "A", tokenAmountIn := 0 + 1, tokenOut := "B", tokenAmountOut := 2 + 0,
    swaps := [("T", 0)], matchingTokens := false, user := "u" }

/-- Fixture for the price-resolution witness: pool P over A, B, C priced
in A, with a current-block TokenPrice for B and only a LatestPrice row for
C. -/
def storePricing : Store :=
  let s := createPool emptyStore "P"
    { blankPool with tokensList := ["A", "B", "C"], tokensCount := 3, liquidity := some 0 }
  let s := setPoolToken s ("P", "A") { balance := 7, invested := 0 }
  let s := setPoolToken s ("P", "B") { balance := 3, invested := 0 }
  let s := setPoolToken s ("P", "C") { balance := 4, invested := 0 }
  let s := setTokenPrice s ("P", "B", "A", 11) { price := 2, amount := 6, timestamp := 9 }
  let s := setLatestPrice s ("C", "A")
    { asset := "C", pricingAsset := "A", price := 5, block := 1, poolId := "P" }
  { s with balancer := some blankVault }

def evCreate1 : PoolCreatedEvent :=
  { poolId := "P1", swapFee := 0, poolType := "Weighted", tokens := ["A", "B"],
    blockTimestamp := 1, poolAddress := "a1", transactionHash := "t1" }

/-- Fixture for the missing-PoolToken fault: pool P lists X and Y but only
X has a PoolToken record. -/
def storeMissingPT : Store :=
  let s := createPool emptyStore "P" { blankPool with tokensList := ["X", "Y"], tokensCount := 2 }
  let s := setPoolToken s ("P", "X") { balance := 1, invested := 0 }
  { s with balancer := some blankVault }

/-- The factory bookkeeping invariant, relative to the multiset of pool
ids seen in PoolCreated events so far: the pool-id index is duplicate
free, matches the Pool records, holds exactly the seen ids, and the
Balancer singleton counts it and exists iff it is non-empty. -/
def FactoryInv (s : Store) (seen : List String) : Prop :=
  s.poolIds.Nodup
  ∧ (∀ pid, (s.pools pid).isSome = true ↔ pid ∈ s.poolIds)
  ∧ (∀ pid, pid ∈ s.poolIds ↔ pid ∈ seen)
  ∧ (s.balancer.map BalancerE.poolCount).getD 0 = (s.poolIds.length : ℤ)
  ∧ (s.balancer = none ↔ s.poolIds = [])

/-! ## Theorems -/

lemma upd_eq {α β : Type} [DecidableEq α] (f : α → Option β) (k : α) (v : β) :
    upd f k v k = some v := by
  simp [upd]

lemma upd_ne {α β : Type} [DecidableEq α] (f : α → Option β) (k : α) (v : β)
    {x : α} (h : x ≠ k) : upd f k v x = f x := by
  simp [upd, h]

/-! ### C4 -/

/-- C4 counterexample: with no LatestPrice rows at all and a non-stable
pricing asset W, the pool-value-to-USD conversion returns the number zero
rather than a distinct "value unknown" outcome (the local variable before
the fallback of the return statement is indeed unassigned), and the
three-argument updatePoolLiquidity then consumes that zero as a valid
value: it overwrites pool.liquidity (previously 10) with 0 and applies
the -10 delta to the protocol totalLiquidity. -/
theorem poolLiquidityInUSD_missing_route_yields_zero :
    poolLiquidityInUSD cfgPlain storeNoRoute 5 "W" = 0
    ∧ poolLiquidityInUSDOpt cfgPlain storeNoRoute 5 "W" = none
    ∧ (updatePoolLiquidity cfgPlain storeNoRoute "P" 5 "W").map
        (fun st => ((st.pools "P").bind Pool.liquidity, totalLiq st))
      = some (some 0, 0) := by
  refine ⟨by decide, by decide, ?_⟩
  simp [updatePoolLiquidity, tokenLoop, poolLiquidityInUSD, poolLiquidityInUSDOpt,
    isUSDStable, setPHL, setPool, setLatestPrice, setPoolToken, createPool, upd,
    emptyStore, storeNoRoute, cfgPlain, totalLiq, blankPool, blankVault]

/-- C4 (amended): for a USD-stable pricing asset the conversion returns
the pool value unchanged and is independent of the LatestPrice table; for
any other pricing asset it multiplies by the LatestPrice(pricingAsset,
USDC) price, falls back to LatestPrice(pricingAsset, DAI) when the USDC
row is absent, and returns zero (not none) when neither route exists. -/
theorem poolLiquidityInUSD_conversion (cfg : Config) (s s2 : Store) (v : Dec) (a : Addr) :
    (isUSDStable cfg a = true →
      poolLiquidityInUSD cfg s v a = v
      ∧ poolLiquidityInUSD cfg s2 v a = poolLiquidityInUSD cfg s v a)
    ∧ (isUSDStable cfg a = false →
      (∀ lp, s.latestPrices (a, cfg.USDC) = some lp →
        poolLiquidityInUSD cfg s v a = v * lp.price)
      ∧ (∀ lp, s.latestPrices (a, cfg.USDC) = none →
          s.latestPrices (a, cfg.DAI) = some lp →
          poolLiquidityInUSD cfg s v a = v * lp.price)
      ∧ (s.latestPrices (a, cfg.USDC) = none →
          s.latestPrices (a, cfg.DAI) = none →
          poolLiquidityInUSD cfg s v a = 0)) := by
  constructor
  · intro h
    constructor <;> simp [poolLiquidityInUSD, poolLiquidityInUSDOpt, h]
  · intro h
    refine ⟨?_, ?_, ?_⟩
    · intro lp hlp
      simp [poolLiquidityInUSD, poolLiquidityInUSDOpt, h, hlp]
    · intro lp husdc hdai
      simp [poolLiquidityInUSD, poolLiquidityInUSDOpt, h, husdc, hdai]
    · intro husdc hdai
      simp [poolLiquidityInUSD, poolLiquidityInUSDOpt, h, husdc, hdai]

theorem poolLiquidityInUSD_conversion_witness :
    poolLiquidityInUSD cfgABC storeABC 42 "A" = 42
    ∧ poolLiquidityInUSD cfgPlain storeNoRoute 5 "W" = 0 :=
  ⟨((poolLiquidityInUSD_conversion cfgABC storeABC storeABC 42 "A").1 (by decide)).1,
    ((poolLiquidityInUSD_conversion cfgPlain storeNoRoute storeNoRoute 5 "W").2
      (by decide)).2.2 rfl rfl⟩

/-! ### C8 -/

/-- The exit balance loop is extensionally the join balance loop: negating
a delta before scaling and subtracting is adding the scaled signed delta,
so the per-token deltas are applied as given regardless of sign on both
paths. -/
lemma exitBalanceLoop_eq_joinBalanceLoop (pid : String) :
    ∀ (ts : List Addr) (as' : List BInt) (s : Store),
      exitBalanceLoop pid ts as' s = joinBalanceLoop pid ts as' s := by
  intro ts
  induction ts with
  | nil => intro as' s; cases as' <;> rfl
  | cons t rest ih =>
    intro as' s
    cases as' with
    | nil => rfl
    | cons a as'' =>
      simp only [exitBalanceLoop, joinBalanceLoop]
      cases h : s.poolTokens (pid, t) with
      | none => rfl
      | some pt =>
        have hval : pt.balance - tokenToDecimal (-a) (getToken s t).decimals
            = pt.balance + tokenToDecimal a (getToken s t).decimals := by
          simp only [tokenToDecimal]
          push_cast
          ring
        simp only [ih, hval]

/-- C8 counterexample: an event with an empty deltas array (net sum zero)
is not processed as an Exit: the dispatcher returns with the store
untouched and no JoinExit record, while the exit handler on the same
store would have recorded a JoinExit of type Exit. -/
theorem empty_deltas_event_ignored :
    handleBalanceChange cfgPlain evEmptyDeltas storeEmptyDeltas = some storeEmptyDeltas
    ∧ storeEmptyDeltas.joinExits ("T3", 2) = none
    ∧ (handlePoolExited cfgPlain evEmptyDeltas storeEmptyDeltas).map
        (fun st => (st.joinExits ("T3", 2)).map (fun j => (j.type', j.amounts)))
      = some (some (JoinExitType.Exit, [])) := by
  refine ⟨rfl, rfl, by decide⟩

/-- C8 (amended): an event with a non-empty deltas array is dispatched to
the join handler iff the sum of its per-token deltas is strictly
positive, and to the exit handler otherwise (including a zero sum); an
event with an empty deltas array is ignored.  The per-token deltas are
applied as given regardless of each delta's individual sign: the exit
balance loop coincides with the join balance loop. -/
theorem balance_change_classification (cfg : Config) (ev : PoolBalanceChangedEvent) (s : Store) :
    (ev.deltas = [] → handleBalanceChange cfg ev s = some s)
    ∧ (ev.deltas ≠ [] → 0 < ev.deltas.foldl (fun sum amount => sum + amount) 0 →
        handleBalanceChange cfg ev s = handlePoolJoined cfg ev s)
    ∧ (ev.deltas ≠ [] → ¬ 0 < ev.deltas.foldl (fun sum amount => sum + amount) 0 →
        handleBalanceChange cfg ev s = handlePoolExited cfg ev s)
    ∧ (∀ (pid : String) (ts : List Addr) (as' : List BInt) (st : Store),
        exitBalanceLoop pid ts as' st = joinBalanceLoop pid ts as' st) := by
  refine ⟨?_, ?_, ?_, fun pid ts as' st => exitBalanceLoop_eq_joinBalanceLoop pid ts as' st⟩
  · intro h
    simp [handleBalanceChange, h]
  · intro hne hpos
    have hlen : ¬ ev.deltas.length = 0 := by
      simpa [List.length_eq_zero] using hne
    simp [handleBalanceChange, hlen, hpos]
  · intro hne hpos
    have hlen : ¬ ev.deltas.length = 0 := by
      simpa [List.length_eq_zero] using hne
    simp [handleBalanceChange, hlen, hpos]

theorem balance_change_classification_witness :
    handleBalanceChange cfgPlain evJoin storeJoin = handlePoolJoined cfgPlain evJoin storeJoin
    ∧ handleBalanceChange cfgPlain evExit storeJoin = handlePoolExited cfgPlain evExit storeJoin :=
  ⟨(balance_change_classification cfgPlain evJoin storeJoin).2.1 (by decide) (by decide),
    (balance_change_classification cfgPlain evExit storeJoin).2.2.1 (by decide) (by decide)⟩

/-! ### C7 -/

/-- If some token in the list has no PoolToken record in the store, the
join balance loop hits the thrown poolToken-not-found error. -/
lemma joinBalanceLoop_missing (pid : String) (t : Addr) :
    ∀ (ts : List Addr) (as' : List BInt) (st : Store), t ∈ ts →
      st.poolTokens (pid, t) = none → joinBalanceLoop pid ts as' st = none := by
  intro ts
  induction ts with
  | nil => intro as' st hmem; cases hmem
  | cons u rest ih =>
    intro as' st hmem hmiss
    cases as' with
    | nil => rfl
    | cons a as'' =>
      simp only [joinBalanceLoop]
      cases h : st.poolTokens (pid, u) with
      | none => rfl
      | some pt =>
        have htu : t ≠ u := by
          intro e
          rw [e, h] at hmiss
          cases hmiss
        have hmem' : t ∈ rest := by
          rcases List.mem_cons.mp hmem with h1 | h1
          · exact absurd h1 htu
          · exact h1
        apply ih as'' _ hmem'
        show upd st.poolTokens (pid, u) _ (pid, t) = none
        rw [upd_ne]
        · exact hmiss
        · intro e
          exact htu (congrArg Prod.snd e)

/-- C7: processing a PoolBalanceChanged event for an existing pool with a
missing PoolToken record for one of its listed tokens aborts as an
unrecoverable fault (the handler traps), and under the all-or-nothing
write semantics of the indexing runtime the store is left exactly as if
the event had never been processed: in particular no JoinExit record is
stored and no balance is updated. -/
theorem missing_poolToken_aborts_balance_change (cfg : Config)
    (ev : PoolBalanceChangedEvent) (s : Store) (pool : Pool) (t : Addr)
    (hpool : s.pools ev.poolId = some pool) (hmem : t ∈ pool.tokensList)
    (hmiss : s.poolTokens (ev.poolId, t) = none) (hne : ev.deltas ≠ []) :
    handleBalanceChange cfg ev s = none
    ∧ (handleBalanceChange cfg ev s).getD s = s := by
  have hlen : ¬ ev.deltas.length = 0 := by
    simpa [List.length_eq_zero] using hne
  have hloopJ : ∀ je : JoinExitE, joinBalanceLoop ev.poolId pool.tokensList ev.deltas
      (setJoinExit s (ev.transactionHash, ev.logIndex) je) = none := by
    intro je
    apply joinBalanceLoop_missing ev.poolId t _ _ _ hmem
    exact hmiss
  have hloopE : ∀ je : JoinExitE, exitBalanceLoop ev.poolId pool.tokensList ev.deltas
      (setJoinExit (setPool s ev.poolId pool) (ev.transactionHash, ev.logIndex) je) = none := by
    intro je
    rw [exitBalanceLoop_eq_joinBalanceLoop]
    apply joinBalanceLoop_missing ev.poolId t _ _ _ hmem
    exact hmiss
  have hjoin : handlePoolJoined cfg ev s = none := by
    simp only [handlePoolJoined, hpool]
    cases hJA : joinAmountsLoop s pool.tokensList ev.deltas with
    | none => rfl
    | some amts => simp only [hloopJ]
  have hexit : handlePoolExited cfg ev s = none := by
    simp only [handlePoolExited, hpool]
    cases hJA : joinAmountsLoop (setPool s ev.poolId pool) pool.tokensList
        (ev.deltas.map (fun a => -a)) with
    | none => rfl
    | some amts => simp only [hloopE]
  have hmain : handleBalanceChange cfg ev s = none := by
    simp only [handleBalanceChange]
    rw [if_neg hlen]
    by_cases hpos : 0 < ev.deltas.foldl (fun sum amount => sum + amount) 0
    · simpa [hpos] using hjoin
    · simpa [hpos] using hexit
  exact ⟨hmain, by rw [hmain]; rfl⟩

theorem missing_poolToken_aborts_balance_change_witness :
    handleBalanceChange cfgPlain evJoin storeMissingPT = none :=
  (missing_poolToken_aborts_balance_change cfgPlain evJoin storeMissingPT
    { blankPool with tokensList := ["X", "Y"], tokensCount := 2 } "Y"
    (by decide) (by decide) (by decide) (by decide)).1

/-! ### C9 -/

lemma joinAmountsLoop_char (s : Store) :
    ∀ (ts : List Addr) (as' : List BInt), ts.length ≤ as'.length →
      joinAmountsLoop s ts as'
        = some ((ts.zip as').map (fun p => scaleDown p.2 (getToken s p.1).decimals)) := by
  intro ts
  induction ts with
  | nil => intro as' _; cases as' <;> rfl
  | cons t rest ih =>
    intro as' hlen
    cases as' with
    | nil => simp at hlen
    | cons a as'' =>
      have : rest.length ≤ as''.length := by simpa using hlen
      simp [joinAmountsLoop, ih as'' this]

/-- Characterization of the join balance loop on a duplicate-free token
list with all PoolToken records present: it succeeds, touches only the
poolTokens table, adds the scaled positional delta to each listed token's
balance, and leaves every other poolTokens key alone. -/
lemma joinBalanceLoop_char (pid : String) :
    ∀ (ts : List Addr) (as' : List BInt) (s : Store), ts.Nodup →
      (∀ t ∈ ts, (s.poolTokens (pid, t)).isSome = true) →
      ts.length ≤ as'.length →
      ∃ s', joinBalanceLoop pid ts as' s = some s'
        ∧ s' = { s with poolTokens := s'.poolTokens }
        ∧ (∀ t a pt, (t, a) ∈ ts.zip as' → s.poolTokens (pid, t) = some pt →
            s'.poolTokens (pid, t) = some
              { pt with balance := pt.balance + tokenToDecimal a (getToken s t).decimals })
        ∧ (∀ k, k.1 ≠ pid ∨ k.2 ∉ ts → s'.poolTokens k = s.poolTokens k) := by
  intro ts
  induction ts with
  | nil =>
    intro as' s _ _ _
    refine ⟨s, rfl, rfl, ?_, ?_⟩
    · intro t a pt h _
      exact absurd h (by simp)
    · intro k _
      rfl
  | cons t rest ih =>
    intro as' s hnd hpts hlen
    cases as' with
    | nil => simp at hlen
    | cons a as'' =>
      have hts : (s.poolTokens (pid, t)).isSome = true := hpts t (by simp)
      obtain ⟨pt, hpt⟩ := Option.isSome_iff_exists.mp hts
      have htnotin : t ∉ rest := (List.nodup_cons.mp hnd).1
      have hndr : rest.Nodup := (List.nodup_cons.mp hnd).2
      have hpts1 : ∀ u ∈ rest,
          ((setPoolToken s (pid, t)
            { pt with balance := pt.balance + tokenToDecimal a (getToken s t).decimals }).poolTokens
            (pid, u)).isSome = true := by
        intro u hu
        have hut : u ≠ t := fun e => htnotin (e ▸ hu)
        have heq : (setPoolToken s (pid, t)
            { pt with balance := pt.balance + tokenToDecimal a (getToken s t).decimals }).poolTokens
            (pid, u) = s.poolTokens (pid, u) :=
          upd_ne _ _ _ (fun e => hut (congrArg Prod.snd e))
        rw [heq]
        exact hpts u (by simp [hu])
      have hlen' : rest.length ≤ as''.length := by simpa using hlen
      obtain ⟨s', hrun, hshape, hpoints, hframe⟩ := ih as''
        (setPoolToken s (pid, t)
          { pt with balance := pt.balance + tokenToDecimal a (getToken s t).decimals })
        hndr hpts1 hlen'
      refine ⟨s', ?_, ?_, ?_, ?_⟩
      · simp only [joinBalanceLoop, hpt]
        exact hrun
      · exact hshape
      · intro u b pt0 hmem hupt
        rcases List.mem_cons.mp hmem with heq | hmem'
        · have hu : u = t := congrArg Prod.fst heq
          have hb : b = a := congrArg Prod.snd heq
          subst hu hb
          have hpt0 : pt0 = pt := by
            rw [hpt] at hupt
            exact (Option.some_injective _ hupt).symm
          subst hpt0
          have hfr : s'.poolTokens (pid, u) = (setPoolToken s (pid, u)
              { pt0 with balance := pt0.balance
                  + tokenToDecimal b (getToken s u).decimals }).poolTokens (pid, u) :=
            hframe (pid, u) (Or.inr htnotin)
          rw [hfr]
          exact upd_eq _ _ _
        · have hu : u ∈ rest := (List.of_mem_zip hmem').1
          have hut : u ≠ t := fun e => htnotin (e ▸ hu)
          have hs1u : (setPoolToken s (pid, t)
              { pt with balance := pt.balance
                  + tokenToDecimal a (getToken s t).decimals }).poolTokens (pid, u)
              = some pt0 := by
            have heq : (setPoolToken s (pid, t)
                { pt with balance := pt.balance
                    + tokenToDecimal a (getToken s t).decimals }).poolTokens (pid, u)
                = s.poolTokens (pid, u) :=
              upd_ne _ _ _ (fun e => hut (congrArg Prod.snd e))
            rw [heq]
            exact hupt
          exact hpoints u b pt0 hmem' hs1u
      · intro k hk
        have hk' : k.1 ≠ pid ∨ k.2 ∉ rest := by
          rcases hk with h | h
          · exact Or.inl h
          · exact Or.inr (fun e => h (List.mem_cons_of_mem _ e))
        rw [hframe k hk']
        rcases hk with h | h
        · exact upd_ne _ _ _ (fun e => h (congrArg Prod.fst e))
        · refine upd_ne _ _ _ (fun e => h ?_)
          rw [congrArg Prod.snd e]
          exact List.mem_cons_self t rest

/-- When no token of the list is a pricing asset, the pricing-asset loop
does nothing. -/
lemma tryUpdates_no_pricing (cfg : Config) (pid : String) (blk ts : BInt) (act : Addr) :
    ∀ (l : List Addr) (s : Store), (∀ t ∈ l, isPricingAsset cfg t = false) →
      tryUpdates cfg pid blk ts act l s = some (s, 0) := by
  intro l
  induction l with
  | nil => intro s _; rfl
  | cons t rest ih =>
    intro s hnp
    have ht : isPricingAsset cfg t = false := hnp t (by simp)
    simp only [tryUpdates, ht]
    exact ih s (fun u hu => hnp u (by simp [hu]))

lemma sub_neg_tokenToDecimal (x : Dec) (a : BInt) (d : ℕ) :
    x - tokenToDecimal (-a) d = x + tokenToDecimal a d := by
  simp only [tokenToDecimal]
  push_cast
  ring

/-- C9: a Join adds each delta, scaled by the token's decimal count and
positionally aligned with the pool's token list, to the corresponding
PoolToken balance, and records one JoinExit with type Join and those
scaled amounts; an Exit negates the deltas before scaling (so the
recorded amounts of an all-negative exit are positive) and subtracts the
scaled negated delta from each balance. -/
theorem join_exit_amounts_and_balances (cfg : Config) (ev : PoolBalanceChangedEvent)
    (s : Store) (pool : Pool)
    (hpool : s.pools ev.poolId = some pool)
    (hnd : pool.tokensList.Nodup)
    (hpts : ∀ t ∈ pool.tokensList, (s.poolTokens (ev.poolId, t)).isSome = true)
    (hlen : pool.tokensList.length ≤ ev.deltas.length)
    (hnp : ∀ t ∈ pool.tokensList, isPricingAsset cfg t = false) :
    (∃ s', handlePoolJoined cfg ev s = some s'
      ∧ s'.joinExits (ev.transactionHash, ev.logIndex) = some
          { type' := .Join,
            amounts := (pool.tokensList.zip ev.deltas).map
              (fun p => scaleDown p.2 (getToken s p.1).decimals),
            pool := ev.poolId, user := ev.liquidityProvider, sender := ev.liquidityProvider,
            timestamp := ev.blockTimestamp, tx := ev.transactionHash }
      ∧ ∀ t a pt, (t, a) ∈ pool.tokensList.zip ev.deltas →
          s.poolTokens (ev.poolId, t) = some pt →
          s'.poolTokens (ev.poolId, t) = some
            { pt with balance := pt.balance + tokenToDecimal a (getToken s t).decimals })
    ∧ (∃ s', handlePoolExited cfg ev s = some s'
      ∧ s'.joinExits (ev.transactionHash, ev.logIndex) = some
          { type' := .Exit,
            amounts := (pool.tokensList.zip (ev.deltas.map (fun a => -a))).map
              (fun p => scaleDown p.2 (getToken s p.1).decimals),
            pool := ev.poolId, user := ev.liquidityProvider, sender := ev.liquidityProvider,
            timestamp := ev.blockTimestamp, tx := ev.transactionHash }
      ∧ ∀ t a pt, (t, a) ∈ pool.tokensList.zip ev.deltas →
          s.poolTokens (ev.poolId, t) = some pt →
          s'.poolTokens (ev.poolId, t) = some
            { pt with balance := pt.balance - tokenToDecimal (-a) (getToken s t).decimals }) := by
  constructor
  · have hJA : joinAmountsLoop s pool.tokensList ev.deltas
        = some ((pool.tokensList.zip ev.deltas).map
            (fun p => scaleDown p.2 (getToken s p.1).decimals)) :=
      joinAmountsLoop_char s pool.tokensList ev.deltas hlen
    obtain ⟨s2, hrun, hshape, hpoints, _⟩ :=
      joinBalanceLoop_char ev.poolId pool.tokensList ev.deltas
        (setJoinExit s (ev.transactionHash, ev.logIndex)
          { type' := .Join,
            amounts := (pool.tokensList.zip ev.deltas).map
              (fun p => scaleDown p.2 (getToken s p.1).decimals),
            pool := ev.poolId, user := ev.liquidityProvider, sender := ev.liquidityProvider,
            timestamp := ev.blockTimestamp, tx := ev.transactionHash })
        hnd (fun t ht => hpts t ht) hlen
    have htry : tryUpdates cfg ev.poolId ev.blockNumber ev.blockTimestamp
        ev.liquidityProvider pool.tokensList s2 = some (s2, 0) :=
      tryUpdates_no_pricing cfg ev.poolId ev.blockNumber ev.blockTimestamp
        ev.liquidityProvider pool.tokensList s2 hnp
    refine ⟨addEffect s2 (.poolSnapshot ev.poolId ev.blockTimestamp), ?_, ?_, ?_⟩
    · simp only [handlePoolJoined, hpool, hJA, hrun, htry]
    · exact (congrArg (fun st => Store.joinExits st (ev.transactionHash, ev.logIndex))
        hshape).trans (upd_eq _ _ _)
    · intro t a pt hmem hupt
      exact hpoints t a pt hmem hupt
  · have hlen2 : pool.tokensList.length ≤ (ev.deltas.map (fun a => -a)).length := by
      simpa using hlen
    have hJA : joinAmountsLoop (setPool s ev.poolId pool) pool.tokensList
        (ev.deltas.map (fun a => -a))
        = some ((pool.tokensList.zip (ev.deltas.map (fun a => -a))).map
            (fun p => scaleDown p.2 (getToken s p.1).decimals)) :=
      joinAmountsLoop_char (setPool s ev.poolId pool) pool.tokensList
        (ev.deltas.map (fun a => -a)) hlen2
    obtain ⟨s2, hrun, hshape, hpoints, _⟩ :=
      joinBalanceLoop_char ev.poolId pool.tokensList ev.deltas
        (setJoinExit (setPool s ev.poolId pool) (ev.transactionHash, ev.logIndex)
          { type' := .Exit,
            amounts := (pool.tokensList.zip (ev.deltas.map (fun a => -a))).map
              (fun p => scaleDown p.2 (getToken s p.1).decimals),
            pool := ev.poolId, user := ev.liquidityProvider, sender := ev.liquidityProvider,
            timestamp := ev.blockTimestamp, tx := ev.transactionHash })
        hnd (fun t ht => hpts t ht) hlen
    have hexitrun : exitBalanceLoop ev.poolId pool.tokensList ev.deltas
        (setJoinExit (setPool s ev.poolId pool) (ev.transactionHash, ev.logIndex)
          { type' := .Exit,
            amounts := (pool.tokensList.zip (ev.deltas.map (fun a => -a))).map
              (fun p => scaleDown p.2 (getToken s p.1).decimals),
            pool := ev.poolId, user := ev.liquidityProvider, sender := ev.liquidityProvider,
            timestamp := ev.blockTimestamp, tx := ev.transactionHash }) = some s2 := by
      rw [exitBalanceLoop_eq_joinBalanceLoop]
      exact hrun
    have htry : tryUpdates cfg ev.poolId ev.blockNumber ev.blockTimestamp
        ev.liquidityProvider pool.tokensList s2 = some (s2, 0) :=
      tryUpdates_no_pricing cfg ev.poolId ev.blockNumber ev.blockTimestamp
        ev.liquidityProvider pool.tokensList s2 hnp
    refine ⟨addEffect s2 (.poolSnapshot ev.poolId ev.blockTimestamp), ?_, ?_, ?_⟩
    · simp only [handlePoolExited, hpool, hJA, hexitrun, htry]
    · exact (congrArg (fun st => Store.joinExits st (ev.transactionHash, ev.logIndex))
        hshape).trans (upd_eq _ _ _)
    · intro t a pt hmem hupt
      have := hpoints t a pt hmem hupt
      rw [show ({ pt with balance := pt.balance
          - tokenToDecimal (-a) (getToken s t).decimals } : PoolToken)
        = { pt with balance := pt.balance + tokenToDecimal a (getToken s t).decimals } from by
          rw [sub_neg_tokenToDecimal]]
      exact this

theorem join_exit_amounts_and_balances_witness :
    (∃ s', handlePoolJoined cfgPlain evJoin storeJoin = some s'
      ∧ s'.poolTokens ("P", "X") = some { balance := 110, invested := 0 }
      ∧ s'.poolTokens ("P", "Y") = some { balance := 220, invested := 0 }
      ∧ (s'.joinExits ("T", 0)).map (fun j => (j.type', j.amounts))
          = some (JoinExitType.Join, [10, 20]))
    ∧ (∃ s', handlePoolExited cfgPlain evExit storeJoin = some s'
      ∧ s'.poolTokens ("P", "X") = some { balance := 95, invested := 0 }
      ∧ s'.poolTokens ("P", "Y") = some { balance := 195, invested := 0 }
      ∧ (s'.joinExits ("T2", 1)).map (fun j => (j.type', j.amounts))
          = some (JoinExitType.Exit, [5, 5])) := by
  constructor
  · obtain ⟨s', hrun, hje, hbal⟩ :=
      (join_exit_amounts_and_balances cfgPlain evJoin storeJoin
        { blankPool with tokensList := ["X", "Y"], tokensCount := 2 }
        (by decide) (by decide) (by decide) (by decide) (by decide)).1
    refine ⟨s', hrun, ?_, ?_, ?_⟩
    · have h1 : s'.poolTokens ("P", "X") = some
          { balance := (100 : Dec) + tokenToDecimal 10 (getToken storeJoin "X").decimals,
            invested := 0 } :=
        hbal "X" 10 { balance := 100, invested := 0 } (by decide) (by decide)
      rw [h1]
      simp [tokenToDecimal, getToken, storeJoin, createPool, setPoolToken, upd, emptyStore]
      norm_num
    · have h1 : s'.poolTokens ("P", "Y") = some
          { balance := (200 : Dec) + tokenToDecimal 20 (getToken storeJoin "Y").decimals,
            invested := 0 } :=
        hbal "Y" 20 { balance := 200, invested := 0 } (by decide) (by decide)
      rw [h1]
      simp [tokenToDecimal, getToken, storeJoin, createPool, setPoolToken, upd, emptyStore]
      norm_num
    · have h2 : s'.joinExits ("T", 0) = some
          { type' := JoinExitType.Join,
            amounts := ((["X", "Y"] : List Addr).zip evJoin.deltas).map
              (fun p => scaleDown p.2 (getToken storeJoin p.1).decimals),
            pool := "P", user := "u", sender := "u", timestamp := 5, tx := "T" } := hje
      rw [h2]
      simp [scaleDown, getToken, storeJoin, createPool, setPoolToken, upd, emptyStore, evJoin]
  · obtain ⟨s', hrun, hje, hbal⟩ :=
      (join_exit_amounts_and_balances cfgPlain evExit storeJoin
        { blankPool with tokensList := ["X", "Y"], tokensCount := 2 }
        (by decide) (by decide) (by decide) (by decide) (by decide)).2
    refine ⟨s', hrun, ?_, ?_, ?_⟩
    · have h1 : s'.poolTokens ("P", "X") = some
          { balance := (100 : Dec) - tokenToDecimal (-(-5)) (getToken storeJoin "X").decimals,
            invested := 0 } :=
        hbal "X" (-5) { balance := 100, invested := 0 } (by decide) (by decide)
      rw [h1]
      simp [tokenToDecimal, getToken, storeJoin, createPool, setPoolToken, upd, emptyStore]
      norm_num
    · have h1 : s'.poolTokens ("P", "Y") = some
          { balance := (200 : Dec) - tokenToDecimal (-(-5)) (getToken storeJoin "Y").decimals,
            invested := 0 } :=
        hbal "Y" (-5) { balance := 200, invested := 0 } (by decide) (by decide)
      rw [h1]
      simp [tokenToDecimal, getToken, storeJoin, createPool, setPoolToken, upd, emptyStore]
      norm_num
    · have h2 : s'.joinExits ("T2", 1) = some
          { type' := JoinExitType.Exit,
            amounts := ((["X", "Y"] : List Addr).zip (evExit.deltas.map (fun a => -a))).map
              (fun p => scaleDown p.2 (getToken storeJoin p.1).decimals),
            pool := "P", user := "u", sender := "u", timestamp := 6, tx := "T2" } := hje
      rw [h2]
      simp [scaleDown, getToken, storeJoin, createPool, setPoolToken, upd, emptyStore, evExit]

/-! ### C10 -/

lemma handleNewPool_factoryInv (ev : PoolCreatedEvent) (s : Store) (seen : List String)
    (h : FactoryInv s seen) : FactoryInv (handleNewPool ev s) (seen ++ [ev.poolId]) := by
  obtain ⟨hnd, hsome, hseen, hcount, hnone⟩ := h
  cases hp : s.pools ev.poolId with
  | some p =>
    have hs' : handleNewPool ev s = s := by simp [handleNewPool, hp]
    rw [hs']
    refine ⟨hnd, hsome, ?_, hcount, hnone⟩
    intro pid
    constructor
    · intro hm
      exact List.mem_append.mpr (Or.inl ((hseen pid).mp hm))
    · intro hm
      rcases List.mem_append.mp hm with hm | hm
      · exact (hseen pid).mpr hm
      · have hpe : pid = ev.poolId := by simpa using hm
        rw [hpe]
        exact (hsome ev.poolId).mp (by simp [hp])
  | none =>
    have hnotin : ev.poolId ∉ s.poolIds := by
      intro hm
      have := (hsome ev.poolId).mpr hm
      simp [hp] at this
    have hs' : handleNewPool ev s
        = addEffect { createPool s ev.poolId
            { newPoolEntity with
              swapFee := scaleDown ev.swapFee 18, createTime := ev.blockTimestamp } with
            balancer := some { findOrInitializeVault (createPool s ev.poolId
              { newPoolEntity with
                swapFee := scaleDown ev.swapFee 18, createTime := ev.blockTimestamp }) with
              poolCount := (findOrInitializeVault (createPool s ev.poolId
                { newPoolEntity with
                  swapFee := scaleDown ev.swapFee 18,
                  createTime := ev.blockTimestamp })).poolCount + 1 } }
          (.balancerSnapshot "2" ev.blockTimestamp) := by
      simp [handleNewPool, hp]
    rw [hs']
    refine ⟨?_, ?_, ?_, ?_, ?_⟩
    · exact List.nodup_cons.mpr ⟨hnotin, hnd⟩
    · intro pid
      show (upd s.pools ev.poolId _ pid).isSome = true ↔ pid ∈ ev.poolId :: s.poolIds
      by_cases hpe : pid = ev.poolId
      · subst hpe
        simp [upd_eq]
      · rw [upd_ne _ _ _ hpe]
        simp only [List.mem_cons]
        constructor
        · intro hm
          exact Or.inr ((hsome pid).mp hm)
        · intro hm
          rcases hm with hm | hm
          · exact absurd hm hpe
          · exact (hsome pid).mpr hm
    · intro pid
      show pid ∈ ev.poolId :: s.poolIds ↔ pid ∈ seen ++ [ev.poolId]
      simp only [List.mem_cons, List.mem_append, List.mem_singleton]
      rw [hseen pid]
      tauto
    · show ((findOrInitializeVault _).poolCount + 1 : ℤ) = ((ev.poolId :: s.poolIds).length : ℤ)
      cases hb : s.balancer with
      | some v =>
        have hfv : findOrInitializeVault (createPool s ev.poolId
            { newPoolEntity with
              swapFee := scaleDown ev.swapFee 18, createTime := ev.blockTimestamp }) = v := by
          simp [findOrInitializeVault, createPool, hb]
        rw [hfv]
        rw [hb] at hcount
        have hcount' : v.poolCount = (s.poolIds.length : ℤ) := by simpa using hcount
        rw [hcount']
        push_cast [List.length_cons]
        ring
      | none =>
        have hids : s.poolIds = [] := hnone.mp hb
        have hfv : findOrInitializeVault (createPool s ev.poolId
            { newPoolEntity with
              swapFee := scaleDown ev.swapFee 18, createTime := ev.blockTimestamp })
            = { poolCount := 0, totalLiquidity := 0, totalSwapVolume := 0,
                totalSwapFee := 0, totalSwapCount := 0 } := by
          simp [findOrInitializeVault, createPool, hb]
        rw [hfv]
        simp [hids]
    · constructor
      · intro h
        cases h
      · intro h
        cases h

lemma runNewPools_factoryInv :
    ∀ (evs : List PoolCreatedEvent) (s : Store) (seen : List String),
      FactoryInv s seen →
      FactoryInv (runNewPools evs s) (seen ++ evs.map (fun e => e.poolId)) := by
  intro evs
  induction evs with
  | nil => intro s seen h; simpa [runNewPools] using h
  | cons ev rest ih =>
    intro s seen h
    have h1 := handleNewPool_factoryInv ev s seen h
    have h2 := ih (handleNewPool ev s) (seen ++ [ev.poolId]) h1
    simpa [runNewPools, List.append_assoc] using h2

lemma factoryInv_empty : FactoryInv emptyStore [] := by
  refine ⟨List.nodup_nil, ?_, ?_, rfl, ?_⟩
  · intro pid
    simp [emptyStore]
  · intro pid
    simp [emptyStore]
  · simp [emptyStore]

/-- C10: handleNewPool is idempotent on an already-known poolId (the
existing Pool record and the Balancer singleton are left untouched); the
Balancer singleton is created lazily on the first pool creation with
poolCount 0 and zero totals (then immediately incremented), and over any
sequence of PoolCreated events starting from the empty store its
poolCount equals the number of distinct poolIds processed. -/
theorem handleNewPool_idempotent_and_poolCount :
    (∀ (ev : PoolCreatedEvent) (s : Store) (p : Pool),
      s.pools ev.poolId = some p → handleNewPool ev s = s)
    ∧ (∀ (ev : PoolCreatedEvent) (s : Store) (v : BalancerE),
      s.pools ev.poolId = none → s.balancer = some v →
      (handleNewPool ev s).balancer = some { v with poolCount := v.poolCount + 1 })
    ∧ (∀ (ev : PoolCreatedEvent) (s : Store),
      s.pools ev.poolId = none → s.balancer = none →
      (handleNewPool ev s).balancer = some
        { poolCount := 1, totalLiquidity := 0, totalSwapVolume := 0, totalSwapFee := 0,
          totalSwapCount := 0 })
    ∧ (∀ evs : List PoolCreatedEvent,
      ((runNewPools evs emptyStore).balancer.map BalancerE.poolCount).getD 0
        = (((evs.map (fun e => e.poolId)).dedup.length : ℕ) : ℤ))
    ∧ (∀ evs : List PoolCreatedEvent,
      (runNewPools evs emptyStore).balancer = none ↔ evs = []) := by
  refine ⟨?_, ?_, ?_, ?_, ?_⟩
  · intro ev s p hp
    simp [handleNewPool, hp]
  · intro ev s v hp hb
    simp [handleNewPool, hp, addEffect, findOrInitializeVault, createPool, hb]
  · intro ev s hp hb
    simp [handleNewPool, hp, addEffect, findOrInitializeVault, createPool, hb]
  · intro evs
    obtain ⟨hnd, _, hseen, hcount, _⟩ :=
      runNewPools_factoryInv evs emptyStore [] factoryInv_empty
    rw [hcount]
    congr 1
    have hsub : (runNewPools evs emptyStore).poolIds.toFinset
        = (evs.map (fun e => e.poolId)).toFinset := by
      apply Finset.ext
      intro a
      simp only [List.mem_toFinset]
      simpa using hseen a
    have h1 : (runNewPools evs emptyStore).poolIds.length
        = (runNewPools evs emptyStore).poolIds.dedup.length := by
      rw [List.dedup_eq_self.mpr hnd]
    rw [h1, ← List.card_toFinset, hsub, List.card_toFinset]
  · intro evs
    obtain ⟨_, _, hseen, _, hnone⟩ :=
      runNewPools_factoryInv evs emptyStore [] factoryInv_empty
    rw [hnone]
    constructor
    · intro h
      have : ∀ a, a ∉ evs.map (fun e => e.poolId) := by
        intro a ha
        have := (hseen a).mpr (by simpa using ha)
        simp [h] at this
      have : evs.map (fun e => e.poolId) = [] := List.eq_nil_iff_forall_not_mem.mpr this
      simpa using this
    · intro h
      subst h
      obtain ⟨_, _, hseen0, _, _⟩ :=
        runNewPools_factoryInv [] emptyStore [] factoryInv_empty
      apply List.eq_nil_iff_forall_not_mem.mpr
      intro a ha
      have := (hseen a).mp ha
      simp at this

theorem handleNewPool_idempotent_and_poolCount_witness :
    handleNewPool evCreate1 (handleNewPool evCreate1 emptyStore)
      = handleNewPool evCreate1 emptyStore
    ∧ ((runNewPools [evCreate1, evCreate1] emptyStore).balancer.map
        BalancerE.poolCount).getD 0 = 1 := by
  constructor
  · exact handleNewPool_idempotent_and_poolCount.1 evCreate1
      (handleNewPool evCreate1 emptyStore)
      { newPoolEntity with
        swapFee := scaleDown evCreate1.swapFee 18, createTime := evCreate1.blockTimestamp }
      rfl
  · rw [handleNewPool_idempotent_and_poolCount.2.2.2.1 [evCreate1, evCreate1]]
    decide

/-! ### C3 -/

/-- Full characterization of the per-token valuation loop on a
duplicate-free token list with every PoolToken present: it returns the
initial value plus the per-token contributions read off the entry store,
touches only the latestPrices table, creates-or-refreshes the LatestPrice
row (stamped with the current block) exactly for the non-pricing-asset
tokens that have a TokenPrice at this block, and leaves every other
LatestPrice row alone. -/
lemma tokenLoop_char (poolId : String) (block : BInt) (pricingAsset : Addr) :
    ∀ (ts : List Addr) (v : Dec) (s : Store), ts.Nodup →
      (∀ t ∈ ts, (s.poolTokens (poolId, t)).isSome = true) →
      ∃ s', tokenLoop poolId block pricingAsset ts v s
          = some (v + (ts.map (contribution s poolId block pricingAsset)).sum, s')
        ∧ s' = { s with latestPrices := s'.latestPrices }
        ∧ (∀ t, t ∈ ts → t ≠ pricingAsset →
            (∀ tp, s.tokenPrices (poolId, t, pricingAsset, block) = some tp →
              s'.latestPrices (t, pricingAsset) = some
                { asset := t, pricingAsset := pricingAsset, price := tp.price,
                  block := block, poolId := poolId })
            ∧ (s.tokenPrices (poolId, t, pricingAsset, block) = none →
              s'.latestPrices (t, pricingAsset) = s.latestPrices (t, pricingAsset)))
        ∧ (∀ k : Addr × Addr, k.1 ∉ ts ∨ k.1 = pricingAsset ∨ k.2 ≠ pricingAsset →
            s'.latestPrices k = s.latestPrices k) := by
  intro ts
  induction ts with
  | nil =>
    intro v s _ _
    refine ⟨s, by simp [tokenLoop], rfl, ?_, fun k _ => rfl⟩
    intro t ht
    exact absurd ht (by simp)
  | cons t rest ih =>
    intro v s hnd hpts
    have hts : (s.poolTokens (poolId, t)).isSome = true := hpts t (by simp)
    obtain ⟨pt, hpt⟩ := Option.isSome_iff_exists.mp hts
    have htnotin : t ∉ rest := (List.nodup_cons.mp hnd).1
    have hndr : rest.Nodup := (List.nodup_cons.mp hnd).2
    have hptsr : ∀ u ∈ rest, (s.poolTokens (poolId, u)).isSome = true :=
      fun u hu => hpts u (by simp [hu])
    by_cases hteq : t = pricingAsset
    · -- the pricing asset itself: its raw balance is added, no price lookup
      subst hteq
      obtain ⟨s', hrun, hshape, hcache, huntouched⟩ := ih (v + pt.balance) s hndr hptsr
      have hcontrib : contribution s poolId block t t = pt.balance := by
        simp [contribution, hpt]
      refine ⟨s', ?_, hshape, ?_, ?_⟩
      · simp only [tokenLoop, hpt, if_pos rfl, hrun, List.map_cons, List.sum_cons, hcontrib,
          add_assoc, eq_self_iff_true, if_true]
      · intro u hu hune
        rcases List.mem_cons.mp hu with he | hu'
        · exact absurd he hune
        · exact hcache u hu' hune
      · intro k hk
        apply huntouched
        rcases hk with h | h
        · exact Or.inl (fun e => h (List.mem_cons_of_mem _ e))
        · exact Or.inr h
    · cases htp : s.tokenPrices (poolId, t, pricingAsset, block) with
      | some tp =>
        -- a TokenPrice at exactly this block: use it and refresh the cache
        obtain ⟨s', hrun, hshape, hcache, huntouched⟩ :=
          ih (v + tp.price * pt.balance)
            (setLatestPrice s (t, pricingAsset)
              { asset := t, pricingAsset := pricingAsset, price := tp.price,
                block := block, poolId := poolId })
            hndr (fun u hu => hptsr u hu)
        have hcontrib : contribution s poolId block pricingAsset t = tp.price * pt.balance := by
          simp [contribution, hpt, hteq, htp]
        have hcongr : rest.map (contribution
              (setLatestPrice s (t, pricingAsset)
                { asset := t, pricingAsset := pricingAsset, price := tp.price,
                  block := block, poolId := poolId }) poolId block pricingAsset)
            = rest.map (contribution s poolId block pricingAsset) := by
          apply List.map_congr_left
          intro u hu
          have hut : u ≠ t := fun e => htnotin (e ▸ hu)
          have hl : upd s.latestPrices (t, pricingAsset)
              { asset := t, pricingAsset := pricingAsset, price := tp.price,
                block := block, poolId := poolId } (u, pricingAsset)
              = s.latestPrices (u, pricingAsset) :=
            upd_ne _ _ _ (fun e => hut (congrArg Prod.fst e))
          simp only [contribution, setLatestPrice]
          rw [hl]
        refine ⟨s', ?_, ?_, ?_, ?_⟩
        · simp only [tokenLoop, hpt, if_neg hteq, htp, hrun, hcongr,
            List.map_cons, List.sum_cons, hcontrib, add_assoc]
        · exact hshape
        · intro u hu hune
          rcases List.mem_cons.mp hu with he | hu'
          · rw [he]
            constructor
            · intro tp' htp'
              rw [htp] at htp'
              have htpe : tp' = tp := (Option.some_injective _ htp'.symm)
              have hfr : s'.latestPrices (t, pricingAsset)
                  = (setLatestPrice s (t, pricingAsset)
                    { asset := t, pricingAsset := pricingAsset, price := tp.price,
                      block := block, poolId := poolId }).latestPrices (t, pricingAsset) :=
                huntouched (t, pricingAsset) (Or.inl htnotin)
              rw [hfr, htpe]
              exact upd_eq _ _ _
            · intro hnone
              rw [htp] at hnone
              cases hnone
          · have h1 := hcache u hu' hune
            constructor
            · intro tp' htp'
              exact h1.1 tp' htp'
            · intro hnone
              have h2 := h1.2 hnone
              rw [h2]
              have hut : u ≠ t := fun e => htnotin (e ▸ hu')
              exact upd_ne _ _ _ (fun e => hut (congrArg Prod.fst e))
        · intro k hk
          have hk' : k.1 ∉ rest ∨ k.1 = pricingAsset ∨ k.2 ≠ pricingAsset := by
            rcases hk with h | h
            · exact Or.inl (fun e => h (List.mem_cons_of_mem _ e))
            · exact Or.inr h
          rw [huntouched k hk']
          have hkt : k ≠ (t, pricingAsset) := by
            intro e
            rcases hk with h | h | h
            · exact h (by rw [congrArg Prod.fst e]; exact List.mem_cons_self t rest)
            · exact hteq ((congrArg Prod.fst e).symm.trans h)
            · exact h (congrArg Prod.snd e)
          exact upd_ne _ _ _ hkt
      | none =>
        cases hlp : s.latestPrices (t, pricingAsset) with
        | some lp =>
          -- no current-block price: fall back to the cache, no cache write
          obtain ⟨s', hrun, hshape, hcache, huntouched⟩ :=
            ih (v + lp.price * pt.balance) s hndr hptsr
          have hcontrib : contribution s poolId block pricingAsset t
              = lp.price * pt.balance := by
            simp [contribution, hpt, hteq, htp, hlp]
          refine ⟨s', ?_, hshape, ?_, ?_⟩
          · simp only [tokenLoop, hpt, if_neg hteq, htp, hlp, hrun,
              List.map_cons, List.sum_cons, hcontrib, add_assoc, zero_add]
          · intro u hu hune
            rcases List.mem_cons.mp hu with he | hu'
            · rw [he]
              constructor
              · intro tp' htp'
                rw [htp] at htp'
                cases htp'
              · intro _
                exact huntouched (t, pricingAsset) (Or.inl htnotin)
            · exact hcache u hu' hune
          · intro k hk
            apply huntouched
            rcases hk with h | h
            · exact Or.inl (fun e => h (List.mem_cons_of_mem _ e))
            · exact Or.inr h
        | none =>
          -- no price at all: the token contributes zero
          obtain ⟨s', hrun, hshape, hcache, huntouched⟩ := ih v s hndr hptsr
          have hcontrib : contribution s poolId block pricingAsset t = 0 := by
            simp [contribution, hpt, hteq, htp, hlp]
          refine ⟨s', ?_, hshape, ?_, ?_⟩
          · simp only [tokenLoop, hpt, if_neg hteq, htp, hlp, hrun,
              List.map_cons, List.sum_cons, hcontrib, add_assoc, zero_add]
          · intro u hu hune
            rcases List.mem_cons.mp hu with he | hu'
            · rw [he]
              constructor
              · intro tp' htp'
                rw [htp] at htp'
                cases htp'
              · intro _
                exact huntouched (t, pricingAsset) (Or.inl htnotin)
            · exact hcache u hu' hune
          · intro k hk
            apply huntouched
            rcases hk with h | h
            · exact Or.inl (fun e => h (List.mem_cons_of_mem _ e))
            · exact Or.inr h

/-- C3: in updatePoolLiquidity, for every token other than the pricing
asset a TokenPrice at exactly the current block is preferred (and then
the LatestPrice row for (token, pricingAsset) is created or refreshed and
stamped with the current block); otherwise an existing LatestPrice row is
used without modifying the cache; a token with neither price contributes
zero; and in all these cases a PoolHistoricalLiquidity snapshot for
(poolId, pricingAsset, block) holding the summed pool value is persisted,
provided the pool exists with at least 2 tokens and a non-empty token
list (and the well-formedness preconditions: PoolToken records present, a
duplicate-free token list, and the Balancer singleton in place so the
handler does not trap). -/
theorem updatePoolLiquidity_price_resolution_and_snapshot (cfg : Config) (s : Store)
    (poolId : String) (block : BInt) (pricingAsset : Addr) (pool : Pool)
    (hpool : s.pools poolId = some pool)
    (hcount : ¬ pool.tokensCount < 2)
    (hne : ¬ pool.tokensList.length = 0)
    (hnd : pool.tokensList.Nodup)
    (hpts : ∀ t ∈ pool.tokensList, (s.poolTokens (poolId, t)).isSome = true)
    (hv : s.balancer.isSome = true) :
    ∃ s', updatePoolLiquidity cfg s poolId block pricingAsset = some s'
      ∧ s'.phls (poolId, pricingAsset, block) = some
          { poolLiquidity := (pool.tokensList.map (contribution s poolId block pricingAsset)).sum }
      ∧ (∀ t, t ∈ pool.tokensList → t ≠ pricingAsset →
          (∀ tp, s.tokenPrices (poolId, t, pricingAsset, block) = some tp →
            s'.latestPrices (t, pricingAsset) = some
              { asset := t, pricingAsset := pricingAsset, price := tp.price,
                block := block, poolId := poolId })
          ∧ (s.tokenPrices (poolId, t, pricingAsset, block) = none →
            s'.latestPrices (t, pricingAsset) = s.latestPrices (t, pricingAsset)))
      ∧ (∀ t pt tp, t ≠ pricingAsset → s.poolTokens (poolId, t) = some pt →
          s.tokenPrices (poolId, t, pricingAsset, block) = some tp →
          contribution s poolId block pricingAsset t = tp.price * pt.balance)
      ∧ (∀ t pt lp, t ≠ pricingAsset → s.poolTokens (poolId, t) = some pt →
          s.tokenPrices (poolId, t, pricingAsset, block) = none →
          s.latestPrices (t, pricingAsset) = some lp →
          contribution s poolId block pricingAsset t = lp.price * pt.balance)
      ∧ (∀ t, t ≠ pricingAsset →
          s.tokenPrices (poolId, t, pricingAsset, block) = none →
          s.latestPrices (t, pricingAsset) = none →
          contribution s poolId block pricingAsset t = 0) := by
  obtain ⟨s1, hrun, hshape, hcache, _⟩ :=
    tokenLoop_char poolId block pricingAsset pool.tokensList 0 s hnd hpts
  obtain ⟨vault, hvault⟩ := Option.isSome_iff_exists.mp hv
  have hbal1 : s1.balancer = some vault :=
    (congrArg Store.balancer hshape).trans hvault
  have hphlval : ((0 : Dec) + (pool.tokensList.map
        (contribution s poolId block pricingAsset)).sum)
      = (pool.tokensList.map (contribution s poolId block pricingAsset)).sum :=
    zero_add _
  have hcontribs :
      (∀ t pt tp, t ≠ pricingAsset → s.poolTokens (poolId, t) = some pt →
        s.tokenPrices (poolId, t, pricingAsset, block) = some tp →
        contribution s poolId block pricingAsset t = tp.price * pt.balance)
      ∧ (∀ t pt lp, t ≠ pricingAsset → s.poolTokens (poolId, t) = some pt →
        s.tokenPrices (poolId, t, pricingAsset, block) = none →
        s.latestPrices (t, pricingAsset) = some lp →
        contribution s poolId block pricingAsset t = lp.price * pt.balance)
      ∧ (∀ t, t ≠ pricingAsset →
        s.tokenPrices (poolId, t, pricingAsset, block) = none →
        s.latestPrices (t, pricingAsset) = none →
        contribution s poolId block pricingAsset t = 0) := by
    refine ⟨?_, ?_, ?_⟩
    · intro t pt tp ht hpt htp
      simp [contribution, hpt, htp, ht]
    · intro t pt lp ht hpt htp hlp
      simp [contribution, hpt, htp, hlp, ht]
    · intro t ht htp hlp
      cases hpt : s.poolTokens (poolId, t) with
      | none => simp [contribution, hpt]
      | some pt => simp [contribution, hpt, htp, hlp, ht]
  cases hliq : pool.liquidity with
  | none =>
    simp only [updatePoolLiquidity, hpool, if_neg hcount, if_neg hne, hrun, hliq, setPHL]
    refine ⟨_, rfl, ?_, ?_, hcontribs.1, hcontribs.2.1, hcontribs.2.2⟩
    · show upd s1.phls (poolId, pricingAsset, block) _ (poolId, pricingAsset, block) = _
      rw [hphlval]
      exact upd_eq _ _ _
    · intro t hmem hne'
      exact hcache t hmem hne'
  | some old =>
    simp only [updatePoolLiquidity, hpool, if_neg hcount, if_neg hne, hrun, hliq, setPHL, hbal1]
    refine ⟨_, rfl, ?_, ?_, hcontribs.1, hcontribs.2.1, hcontribs.2.2⟩
    · show upd s1.phls (poolId, pricingAsset, block) _ (poolId, pricingAsset, block) = _
      rw [hphlval]
      exact upd_eq _ _ _
    · intro t hmem hne'
      exact hcache t hmem hne'

theorem updatePoolLiquidity_price_resolution_and_snapshot_witness :
    ∃ s', updatePoolLiquidity cfgABC storePricing "P" 11 "A" = some s'
      ∧ s'.phls ("P", "A", 11) = some { poolLiquidity := 33 }
      ∧ s'.latestPrices ("B", "A") = some
          { asset := "B", pricingAsset := "A", price := 2, block := 11, poolId := "P" }
      ∧ s'.latestPrices ("C", "A") = storePricing.latestPrices ("C", "A") := by
  obtain ⟨s', hrun, hphl, hcache, _, _, _⟩ :=
    updatePoolLiquidity_price_resolution_and_snapshot cfgABC storePricing "P" 11 "A"
      { blankPool with tokensList := ["A", "B", "C"], tokensCount := 3, liquidity := some 0 }
      (by decide) (by decide) (by decide) (by decide) (by decide) (by decide)
  have hphl2 : s'.phls ("P", "A", 11) = some
      { poolLiquidity := ((["A", "B", "C"] : List Addr).map
          (contribution storePricing "P" 11 "A")).sum } := hphl
  have hsum : ((["A", "B", "C"] : List Addr).map
      (contribution storePricing "P" 11 "A")).sum = 33 := by
    simp [contribution, storePricing, createPool, setPoolToken, setTokenPrice,
      setLatestPrice, upd, emptyStore, blankPool]
    norm_num
  refine ⟨s', hrun, ?_, ?_, ?_⟩
  · rw [hphl2, hsum]
  · exact (hcache "B" (by decide) (by decide)).1 { price := 2, amount := 6, timestamp := 9 }
      (by decide)
  · exact (hcache "C" (by decide) (by decide)).2 (by decide)

/-! ### C2 -/

/-- The valuation loop touches only the latestPrices table. -/
lemma tokenLoop_shape (pid : String) (blk : BInt) (pa : Addr) :
    ∀ (ts : List Addr) (v : Dec) (s : Store) (r : Dec × Store),
      tokenLoop pid blk pa ts v s = some r →
      r.2 = { s with latestPrices := r.2.latestPrices } := by
  intro ts
  induction ts with
  | nil =>
    intro v s r h
    simp only [tokenLoop] at h
    have h' : (v, s) = r := Option.some_injective _ h
    rw [← h']
  | cons t rest ih =>
    intro v s r h
    simp only [tokenLoop] at h
    cases hpt : s.poolTokens (pid, t) with
    | none => simp [hpt] at h
    | some pt =>
      simp only [hpt] at h
      by_cases hteq : t = pa
      · rw [if_pos hteq] at h
        exact ih _ _ _ h
      · rw [if_neg hteq] at h
        cases htp : s.tokenPrices (pid, t, pa, blk) with
        | some tp =>
          simp only [htp] at h
          have h2 := ih (v + tp.price * pt.balance)
            (setLatestPrice s (t, pa)
              { asset := t, pricingAsset := pa, price := tp.price,
                block := blk, poolId := pid }) r h
          exact h2
        | none =>
          simp only [htp] at h
          cases hlp : s.latestPrices (t, pa) with
          | some lp =>
            simp only [hlp] at h
            exact ih _ _ _ h
          | none =>
            simp only [hlp] at h
            exact ih _ _ _ h

/-- The valuation loop never writes a LatestPrice row whose asset is the
pricing asset itself. -/
lemma tokenLoop_latest_pa (pid : String) (blk : BInt) (pa : Addr) :
    ∀ (ts : List Addr) (v : Dec) (s : Store) (r : Dec × Store),
      tokenLoop pid blk pa ts v s = some r →
      ∀ bb, r.2.latestPrices (pa, bb) = s.latestPrices (pa, bb) := by
  intro ts
  induction ts with
  | nil =>
    intro v s r h bb
    simp only [tokenLoop] at h
    have h' : (v, s) = r := Option.some_injective _ h
    rw [← h']
  | cons t rest ih =>
    intro v s r h bb
    simp only [tokenLoop] at h
    cases hpt : s.poolTokens (pid, t) with
    | none => simp [hpt] at h
    | some pt =>
      simp only [hpt] at h
      by_cases hteq : t = pa
      · rw [if_pos hteq] at h
        exact ih _ _ _ h bb
      · rw [if_neg hteq] at h
        cases htp : s.tokenPrices (pid, t, pa, blk) with
        | some tp =>
          simp only [htp] at h
          have h1 := ih (v + tp.price * pt.balance)
            (setLatestPrice s (t, pa)
              { asset := t, pricingAsset := pa, price := tp.price,
                block := blk, poolId := pid }) r h bb
          rw [h1]
          exact upd_ne _ _ _ (fun e => hteq (congrArg Prod.fst e).symm)
        | none =>
          simp only [htp] at h
          cases hlp : s.latestPrices (t, pa) with
          | some lp =>
            simp only [hlp] at h
            exact ih _ _ _ h bb
          | none =>
            simp only [hlp] at h
            exact ih _ _ _ h bb

/-- Case analysis of the boolean-returning liquidity update: the pool-id
index is never touched; on failure neither the Pool table nor the
Balancer singleton changes; on success the pool's liquidity is
overwritten and exactly the delta against the previously stored liquidity
is added to totalLiquidity; and (under the guards that let the routine
reach the conversion) the returned flag is true iff the pricing asset has
a USD route. -/
lemma updatePoolLiquidityWithSuccess_cases (cfg : Config) (s : Store) (pid : String)
    (blk : BInt) (pa : Addr) (ts : BInt) (act : Addr) (b : Bool) (s' : Store)
    (h : updatePoolLiquidityWithSuccess cfg s pid blk pa ts act = some (b, s')) :
    s'.poolIds = s.poolIds
    ∧ (b = false → s'.pools = s.pools ∧ s'.balancer = s.balancer)
    ∧ (b = true → ∃ pool vault newLiq, s.pools pid = some pool ∧ s.balancer = some vault
        ∧ s'.pools = upd s.pools pid { pool with liquidity := some newLiq }
        ∧ s'.balancer = some { vault with totalLiquidity :=
            vault.totalLiquidity + (newLiq - pool.liquidity.getD 0) })
    ∧ (∀ pool, s.pools pid = some pool → ¬ pool.tokensCount < 2 →
        ¬ pool.tokensList.length = 0 → (b = true ↔ usdRoute cfg s pa)) := by
  cases hp : s.pools pid with
  | none =>
    have heq : updatePoolLiquidityWithSuccess cfg s pid blk pa ts act = some (false, s) := by
      simp only [updatePoolLiquidityWithSuccess, hp]
    rw [heq] at h
    injection h with h1
    rw [Prod.mk.injEq] at h1
    obtain ⟨hb, hs⟩ := h1
    subst hb
    subst hs
    refine ⟨rfl, fun _ => ⟨rfl, rfl⟩, fun hbt => absurd hbt (by simp), ?_⟩
    intro pool hpool
    cases hpool
  | some pool =>
    by_cases hc2 : pool.tokensCount < 2
    · have heq : updatePoolLiquidityWithSuccess cfg s pid blk pa ts act
          = some (false, s) := by
        simp only [updatePoolLiquidityWithSuccess, hp, if_pos hc2]
      rw [heq] at h
      injection h with h1
      rw [Prod.mk.injEq] at h1
      obtain ⟨hb, hs⟩ := h1
      subst hb
      subst hs
      refine ⟨rfl, fun _ => ⟨rfl, rfl⟩, fun hbt => absurd hbt (by simp), ?_⟩
      intro pool' hpool' hcount' _
      have : pool = pool' := Option.some_injective _ hpool'
      subst this
      exact absurd hc2 hcount'
    · by_cases hlen0 : pool.tokensList.length = 0
      · have heq : updatePoolLiquidityWithSuccess cfg s pid blk pa ts act
            = some (false, s) := by
          simp only [updatePoolLiquidityWithSuccess, hp, if_neg hc2, if_pos hlen0]
        rw [heq] at h
        injection h with h1
        rw [Prod.mk.injEq] at h1
        obtain ⟨hb, hs⟩ := h1
        subst hb
        subst hs
        refine ⟨rfl, fun _ => ⟨rfl, rfl⟩, fun hbt => absurd hbt (by simp), ?_⟩
        intro pool' hpool' _ hlen'
        have : pool = pool' := Option.some_injective _ hpool'
        subst this
        exact absurd hlen0 hlen'
      · cases hloop : tokenLoop pid blk pa pool.tokensList 0 s with
        | none =>
          have heq : updatePoolLiquidityWithSuccess cfg s pid blk pa ts act = none := by
            simp only [updatePoolLiquidityWithSuccess, hp, if_neg hc2, if_neg hlen0, hloop]
          rw [heq] at h
          cases h
        | some r =>
          obtain ⟨pv, st⟩ := r
          have hshape := tokenLoop_shape pid blk pa pool.tokensList 0 s (pv, st) hloop
          have hpa := tokenLoop_latest_pa pid blk pa pool.tokensList 0 s (pv, st) hloop
          cases hopt : poolLiquidityInUSDOpt cfg
              (setPHL st (pid, pa, blk) { poolLiquidity := pv }) pv pa with
          | none =>
            have heq : updatePoolLiquidityWithSuccess cfg s pid blk pa ts act
                = some (false, setPHL st (pid, pa, blk) { poolLiquidity := pv }) := by
              simp only [updatePoolLiquidityWithSuccess, hp, if_neg hc2, if_neg hlen0,
                hloop, hopt]
            rw [heq] at h
            injection h with h1
            rw [Prod.mk.injEq] at h1
            obtain ⟨hb, hs⟩ := h1
            subst hb
            have hnr : ¬ usdRoute cfg s pa := by
              by_cases hstable : isUSDStable cfg pa = true
              · exfalso
                simp [poolLiquidityInUSDOpt, hstable] at hopt
              · have hsf : isUSDStable cfg pa = false := by simpa using hstable
                cases husdc : s.latestPrices (pa, cfg.USDC) with
                | some lp =>
                  exfalso
                  have hx : (setPHL st (pid, pa, blk)
                      { poolLiquidity := pv }).latestPrices (pa, cfg.USDC) = some lp :=
                    (hpa cfg.USDC).trans husdc
                  simp [poolLiquidityInUSDOpt, hsf, hx] at hopt
                | none =>
                  cases hdai : s.latestPrices (pa, cfg.DAI) with
                  | some lp =>
                    exfalso
                    have hx0 : (setPHL st (pid, pa, blk)
                        { poolLiquidity := pv }).latestPrices (pa, cfg.USDC) = none :=
                      (hpa cfg.USDC).trans husdc
                    have hx : (setPHL st (pid, pa, blk)
                        { poolLiquidity := pv }).latestPrices (pa, cfg.DAI) = some lp :=
                      (hpa cfg.DAI).trans hdai
                    simp [poolLiquidityInUSDOpt, hsf, hx0, hx] at hopt
                  | none =>
                    simp [usdRoute, hsf, husdc, hdai]
            have hids := congrArg Store.poolIds hshape
            have hpls := congrArg Store.pools hshape
            have hbls := congrArg Store.balancer hshape
            refine ⟨?_, ?_, fun hbt => absurd hbt (by simp), ?_⟩
            · rw [← hs]
              exact hids
            · intro _
              rw [← hs]
              exact ⟨hpls, hbls⟩
            · intro pool' hpool' _ _
              simp only [Bool.false_eq_true, false_iff]
              exact hnr
          | some newLiq =>
            cases hbal : s.balancer with
            | none =>
              have hb1 : (setPHL st (pid, pa, blk)
                  { poolLiquidity := pv }).balancer = none :=
                (congrArg Store.balancer hshape).trans hbal
              have heq : updatePoolLiquidityWithSuccess cfg s pid blk pa ts act = none := by
                simp only [updatePoolLiquidityWithSuccess, hp, if_neg hc2, if_neg hlen0,
                  hloop, hopt, hb1]
              rw [heq] at h
              cases h
            | some vault =>
              have hb1 : (setPHL st (pid, pa, blk)
                  { poolLiquidity := pv }).balancer = some vault :=
                (congrArg Store.balancer hshape).trans hbal
              have heq : updatePoolLiquidityWithSuccess cfg s pid blk pa ts act
                  = some (true, setPool { setPHL st (pid, pa, blk) { poolLiquidity := pv } with
                      balancer := some { vault with totalLiquidity :=
                        vault.totalLiquidity + (newLiq - pool.liquidity.getD 0) } }
                    pid { pool with liquidity := some newLiq }) := by
                simp only [updatePoolLiquidityWithSuccess, hp, if_neg hc2, if_neg hlen0,
                  hloop, hopt, hb1]
              rw [heq] at h
              injection h with h1
              rw [Prod.mk.injEq] at h1
              obtain ⟨hb, hs⟩ := h1
              subst hb
              have hroute : usdRoute cfg s pa := by
                by_cases hstable : isUSDStable cfg pa = true
                · exact Or.inl hstable
                · have hsf : isUSDStable cfg pa = false := by simpa using hstable
                  cases husdc : s.latestPrices (pa, cfg.USDC) with
                  | some lp =>
                    exact Or.inr (Or.inl (by simp [husdc]))
                  | none =>
                    cases hdai : s.latestPrices (pa, cfg.DAI) with
                    | some lp =>
                      exact Or.inr (Or.inr (by simp [hdai]))
                    | none =>
                      exfalso
                      have hx : (setPHL st (pid, pa, blk)
                          { poolLiquidity := pv }).latestPrices (pa, cfg.USDC) = none :=
                        (hpa cfg.USDC).trans husdc
                      have hy : (setPHL st (pid, pa, blk)
                          { poolLiquidity := pv }).latestPrices (pa, cfg.DAI) = none :=
                        (hpa cfg.DAI).trans hdai
                      simp [poolLiquidityInUSDOpt, hsf, hx, hy] at hopt
              have hids := congrArg Store.poolIds hshape
              have hXp := congrArg Store.pools hshape
              refine ⟨?_, fun hbf => absurd hbf (by simp), ?_, ?_⟩
              · rw [← hs]
                exact hids
              · intro _
                refine ⟨pool, vault, newLiq, rfl, rfl, ?_, ?_⟩
                · rw [← hs]
                  exact congrArg (fun f => upd f pid { pool with liquidity := some newLiq }) hXp
                · rw [← hs]
                  rfl
              · intro pool' hpool' _ _
                simp only [true_iff]
                exact hroute

/-- The pricing-asset loop performs at most one successful liquidity
update. -/
lemma tryUpdates_le_one (cfg : Config) (pid : String) (blk ts : BInt) (act : Addr) :
    ∀ (l : List Addr) (s s' : Store) (n : ℕ),
      tryUpdates cfg pid blk ts act l s = some (s', n) → n ≤ 1 := by
  intro l
  induction l with
  | nil =>
    intro s s' n h
    simp only [tryUpdates] at h
    injection h with h1
    rw [Prod.mk.injEq] at h1
    omega
  | cons t rest ih =>
    intro s s' n h
    by_cases hpr : isPricingAsset cfg t = true
    · cases hv5 : updatePoolLiquidityWithSuccess cfg s pid blk t ts act with
      | none =>
        have heq : tryUpdates cfg pid blk ts act (t :: rest) s = none := by
          simp only [tryUpdates, if_pos hpr, hv5]
        rw [heq] at h
        cases h
      | some r =>
        obtain ⟨succ, s1⟩ := r
        cases succ with
        | true =>
          have heq : tryUpdates cfg pid blk ts act (t :: rest) s = some (s1, 1) := by
            simp only [tryUpdates, if_pos hpr, hv5, if_pos rfl, eq_self_iff_true, if_true]
          rw [heq] at h
          injection h with h1
          rw [Prod.mk.injEq] at h1
          omega
        | false =>
          have heq : tryUpdates cfg pid blk ts act (t :: rest) s
              = tryUpdates cfg pid blk ts act rest s1 := by
            simp only [tryUpdates, if_pos hpr, hv5]
            rfl
          rw [heq] at h
          exact ih s1 s' n h
    · have heq : tryUpdates cfg pid blk ts act (t :: rest) s
          = tryUpdates cfg pid blk ts act rest s := by
        simp only [tryUpdates, if_neg hpr]
      rw [heq] at h
      exact ih s s' n h

/-- C2 counterexample: the swap handler does not iterate the pool's token
list breaking at the first successful updatePoolLiquidity.  Pool P lists
the pricing assets [A, B, C] (all USD-stable, so every update succeeds);
under the claimed iteration the first invocation, for token A, would
succeed and break, leaving a PoolHistoricalLiquidity row for A only.  The
code instead invokes the update once per swap leg: a B-to-C swap writes
rows for B and for C (two successful updates in one event) and never one
for A. -/
theorem swapHandler_does_not_iterate_tokensList :
    (handleSwapEvent cfgABC evSwapBC storeABC).map
      (fun st => ((st.phls ("P", "B", 7)).isSome, (st.phls ("P", "C", 7)).isSome,
        st.phls ("P", "A", 7))) = some (true, true, none) := by
  simp +decide [handleSwapEvent, swapBookkeeping, swapBookkeepingCore, swapTail,
    tradePairPriceStep, captureIn, captureOut, getUserStore, getUser, getToken,
    isVariableWeightPool, scaleDown, batchSwapStep, getBatchSwap, batchOutSum,
    valueInUSD, isUSDStable, isPricingAsset, getTradePair, getTradePairId,
    updatePoolLiquidityWithSuccess, tokenLoop, poolLiquidityInUSDOpt, poolLiquidityInUSD,
    setSwap, setBatchSwap, setPool, setPoolToken, setTokenPrice, setLatestPrice, setPHL,
    setUser, setTradePair, setTradePairPrice, addEffect, upd, emptyStore, createPool,
    storeABC, cfgABC, evSwapBC, blankPool, blankVault]

/-- C2 (amended): the boolean-returning updatePoolLiquidity reports true
iff the conversion of the pool value to USD succeeded (the pricing asset
is USD-stable or has a LatestPrice row against USDC or DAI), and only on
success are pool.liquidity and the protocol totalLiquidity touched.  The
join and exit handlers iterate the pool's token list in order through the
pricing-asset loop, which skips non-pricing assets, recurses on a failed
update, stops at the first update that returns true, and performs at most
one successful update per call site per event.  (The swap handler is not
such a caller: it invokes the update once per pricing-asset swap leg, see
the counterexample.) -/
theorem updatePoolLiquidity_success_flag_and_callers :
    (∀ (cfg : Config) (s : Store) (pid : String) (blk : BInt) (pa : Addr) (ts : BInt)
      (act : Addr) (b : Bool) (s' : Store) (pool : Pool),
      s.pools pid = some pool → ¬ pool.tokensCount < 2 → ¬ pool.tokensList.length = 0 →
      updatePoolLiquidityWithSuccess cfg s pid blk pa ts act = some (b, s') →
      ((b = true ↔ usdRoute cfg s pa)
        ∧ (b = false → s'.pools = s.pools ∧ s'.balancer = s.balancer)))
    ∧ (∀ (cfg : Config) (pid : String) (blk ts : BInt) (act t : Addr) (rest : List Addr)
      (s : Store),
      (isPricingAsset cfg t = false →
        tryUpdates cfg pid blk ts act (t :: rest) s = tryUpdates cfg pid blk ts act rest s)
      ∧ (∀ s1, isPricingAsset cfg t = true →
        updatePoolLiquidityWithSuccess cfg s pid blk t ts act = some (true, s1) →
        tryUpdates cfg pid blk ts act (t :: rest) s = some (s1, 1))
      ∧ (∀ s1, isPricingAsset cfg t = true →
        updatePoolLiquidityWithSuccess cfg s pid blk t ts act = some (false, s1) →
        tryUpdates cfg pid blk ts act (t :: rest) s = tryUpdates cfg pid blk ts act rest s1))
    ∧ (∀ (cfg : Config) (pid : String) (blk ts : BInt) (act : Addr) (l : List Addr)
      (s s' : Store) (n : ℕ),
      tryUpdates cfg pid blk ts act l s = some (s', n) → n ≤ 1) := by
  refine ⟨?_, ?_, ?_⟩
  · intro cfg s pid blk pa ts act b s' pool hpool hc2 hlen h
    obtain ⟨_, hfalse, _, hiff⟩ :=
      updatePoolLiquidityWithSuccess_cases cfg s pid blk pa ts act b s' h
    exact ⟨hiff pool hpool hc2 hlen, hfalse⟩
  · intro cfg pid blk ts act t rest s
    refine ⟨?_, ?_, ?_⟩
    · intro hnp
      simp only [tryUpdates, if_neg (by simp [hnp] : ¬ isPricingAsset cfg t = true)]
    · intro s1 hpr hv5
      simp only [tryUpdates, if_pos hpr, hv5, if_pos rfl, eq_self_iff_true, if_true]
    · intro s1 hpr hv5
      simp only [tryUpdates, if_pos hpr, hv5]
      rfl
  · intro cfg pid blk ts act l s s' n h
    exact tryUpdates_le_one cfg pid blk ts act l s s' n h

theorem updatePoolLiquidity_success_flag_and_callers_witness :
    tryUpdates cfgPlain "P" 1 5 "u" ("X" :: ["Y"]) storeJoin
      = tryUpdates cfgPlain "P" 1 5 "u" ["Y"] storeJoin
    ∧ (0 : ℕ) ≤ 1 :=
  ⟨(updatePoolLiquidity_success_flag_and_callers.2.1 cfgPlain "P" 1 5 "u" "X" ["Y"]
      storeJoin).1 (by decide),
    updatePoolLiquidity_success_flag_and_callers.2.2 cfgPlain "P" 1 5 "u" [] storeJoin
      storeJoin 0 rfl⟩

/-! ### C6 -/

lemma upd_isSome {α β : Type} [DecidableEq α] (f : α → Option β) (k : α) (v : β) :
    ((upd f k v) k).isSome = true := by
  rw [upd_eq]
  rfl

lemma getUserStore_agree (s : Store) (a : Addr) :
    (getUserStore s a).pools = s.pools
    ∧ (getUserStore s a).poolIds = s.poolIds
    ∧ (getUserStore s a).tokenPrices = s.tokenPrices
    ∧ (getUserStore s a).latestPrices = s.latestPrices
    ∧ (getUserStore s a).phls = s.phls
    ∧ (getUserStore s a).balancer = s.balancer
    ∧ (getUserStore s a).swaps = s.swaps
    ∧ (getUserStore s a).tradePairPrices = s.tradePairPrices
    ∧ (getUserStore s a).effects = s.effects := by
  unfold getUserStore
  cases s.users a
  · exact ⟨rfl, rfl, rfl, rfl, rfl, rfl, rfl, rfl, rfl⟩
  · exact ⟨rfl, rfl, rfl, rfl, rfl, rfl, rfl, rfl, rfl⟩

lemma batchSwapStep_eq (s : Store) (tx : String) (swapId : String × BInt) (sw : SwapE)
    (s' : Store) (b : BatchSwapE) (h : batchSwapStep s tx swapId sw = some (s', b)) :
    s' = setBatchSwap s tx b := by
  simp only [batchSwapStep] at h
  by_cases hin : (getBatchSwap s tx sw).tokenIn = sw.tokenIn
  · rw [if_pos hin] at h
    split at h
    · exact Option.noConfusion h
    · injection h with h1
      rw [Prod.mk.injEq] at h1
      obtain ⟨h2, h3⟩ := h1
      subst h3
      exact h2.symm
  · rw [if_neg hin] at h
    split at h
    · exact Option.noConfusion h
    · injection h with h1
      rw [Prod.mk.injEq] at h1
      obtain ⟨h2, h3⟩ := h1
      subst h3
      exact h2.symm

/-- Destructuring of the bookkeeping core: it touches only the swap,
batch-swap, pool-counter, vault-counter, pool-token, user and trade-pair
state; every price table, the pool-id index and the protocol liquidity
total are untouched; the swap record is saved, the pool's swap counter is
bumped with its liquidity intact, and no pool or swap snapshot effect is
emitted. -/
lemma swapBookkeepingCore_shape (cfg : Config) (ev : SwapEventData) (pool : Pool)
    (s s1 : Store) (l : SwapLocals)
    (h : swapBookkeepingCore cfg ev pool s = some (s1, l)) :
    s1.tokenPrices = s.tokenPrices
    ∧ s1.tradePairPrices = s.tradePairPrices
    ∧ s1.phls = s.phls
    ∧ s1.latestPrices = s.latestPrices
    ∧ s1.poolIds = s.poolIds
    ∧ s1.balancer.map BalancerE.totalLiquidity = s.balancer.map BalancerE.totalLiquidity
    ∧ (∃ pool1, s1.pools = upd s.pools ev.poolId pool1
        ∧ pool1.liquidity = pool.liquidity ∧ pool1.swapsCount = pool.swapsCount + 1)
    ∧ (s1.swaps (ev.transactionHash, ev.logIndex)).isSome = true
    ∧ (∀ p ts, Effect.poolSnapshot p ts ∈ s1.effects → Effect.poolSnapshot p ts ∈ s.effects)
    ∧ (∀ p ts v f, Effect.swapSnapshot p ts v f ∈ s1.effects →
        Effect.swapSnapshot p ts v f ∈ s.effects) := by
  simp only [swapBookkeepingCore] at h
  cases hti : s.poolTokens (ev.poolId, ev.tokenIn) with
  | none =>
    simp only [hti] at h
    exact Option.noConfusion h
  | some poolTokenIn =>
    cases hto : s.poolTokens (ev.poolId, ev.tokenOut) with
    | none =>
      simp only [hti, hto] at h
      exact Option.noConfusion h
    | some poolTokenOut =>
      simp only [hti, hto] at h
      split at h
      next hbs => exact Option.noConfusion h
      next s2 batchSwap hbs =>
        have heq2 := batchSwapStep_eq _ _ _ _ _ _ hbs
        subst heq2
        split at h
        next hbal => exact Option.noConfusion h
        next vault hbal =>
          have hbal' : s.balancer = some vault := hbal
          injection h with h1
          rw [Prod.mk.injEq] at h1
          obtain ⟨hs1, hl⟩ := h1
          subst hs1
          subst hl
          refine ⟨?_, ?_, ?_, ?_, ?_, ?_, ?_, ?_, ?_, ?_⟩
          · split <;> rfl
          · split <;> rfl
          · split <;> rfl
          · split <;> rfl
          · split <;> rfl
          · rw [hbal']
            split <;> rfl
          · apply Exists.intro
            refine ⟨?_, ?_, ?_⟩
            · split <;> rfl
            · rfl
            · rfl
          · split
            · exact upd_isSome s.swaps (ev.transactionHash, ev.logIndex) _
            · exact upd_isSome s.swaps (ev.transactionHash, ev.logIndex) _
          · intro p ts hm
            split at hm
            · simp [addEffect, setTradePair, setUser, setPoolToken, setPool,
                setBatchSwap, setSwap] at hm
              exact hm
            · simp [addEffect, setTradePair, setUser, setPoolToken, setPool,
                setBatchSwap, setSwap] at hm
              exact hm
          · intro p ts v f hm
            split at hm
            · simp [addEffect, setTradePair, setUser, setPoolToken, setPool,
                setBatchSwap, setSwap] at hm
              exact hm
            · simp [addEffect, setTradePair, setUser, setPoolToken, setPool,
                setBatchSwap, setSwap] at hm
              exact hm

/-- Destructuring of the full bookkeeping phase relative to the handler's
input store. -/
lemma swapBookkeeping_shape (cfg : Config) (ev : SwapEventData) (s s1 : Store)
    (l : SwapLocals) (h : swapBookkeeping cfg ev s = some (some (s1, l))) :
    s1.tokenPrices = s.tokenPrices
    ∧ s1.tradePairPrices = s.tradePairPrices
    ∧ s1.phls = s.phls
    ∧ s1.latestPrices = s.latestPrices
    ∧ s1.poolIds = s.poolIds
    ∧ s1.balancer.map BalancerE.totalLiquidity = s.balancer.map BalancerE.totalLiquidity
    ∧ (∃ pool pool1, s.pools ev.poolId = some pool
        ∧ s1.pools = upd s.pools ev.poolId pool1
        ∧ pool1.liquidity = pool.liquidity ∧ pool1.swapsCount = pool.swapsCount + 1)
    ∧ (s1.swaps (ev.transactionHash, ev.logIndex)).isSome = true
    ∧ (∀ p ts, Effect.poolSnapshot p ts ∈ s1.effects → Effect.poolSnapshot p ts ∈ s.effects)
    ∧ (∀ p ts v f, Effect.swapSnapshot p ts v f ∈ s1.effects →
        Effect.swapSnapshot p ts v f ∈ s.effects) := by
  obtain ⟨g1, g2, g3, g4, g5, g6, g7, g8, g9⟩ := getUserStore_agree s ev.txFrom
  simp only [swapBookkeeping] at h
  rw [g1] at h
  cases hp : s.pools ev.poolId with
  | none =>
    simp only [hp] at h
    exact Option.noConfusion (Option.some.inj h)
  | some pool =>
    simp only [hp] at h
    set sB := (if isVariableWeightPool pool then
        addEffect (getUserStore s ev.txFrom) (Effect.updatePoolWeights ev.poolId)
      else getUserStore s ev.txFrom) with hsB
    cases hc : swapBookkeepingCore cfg ev pool sB with
    | none =>
      rw [hc] at h
      exact Option.noConfusion h
    | some r =>
      obtain ⟨s1', l'⟩ := r
      rw [hc] at h
      replace h : some (some (s1', l')) = some (some (s1, l)) := h
      injection h with h2
      injection h2 with h3
      rw [Prod.mk.injEq] at h3
      obtain ⟨hs1, hl⟩ := h3
      subst hs1
      subst hl
      obtain ⟨c1, c2, c3, c4, c5, c6, c7, c8, c9, c10⟩ :=
        swapBookkeepingCore_shape cfg ev pool sB s1' l' hc
      have hBtp : sB.tokenPrices = s.tokenPrices := by
        rw [hsB]; split <;> exact g3
      have hBtpp : sB.tradePairPrices = s.tradePairPrices := by
        rw [hsB]; split <;> exact g8
      have hBphl : sB.phls = s.phls := by
        rw [hsB]; split <;> exact g5
      have hBlat : sB.latestPrices = s.latestPrices := by
        rw [hsB]; split <;> exact g4
      have hBids : sB.poolIds = s.poolIds := by
        rw [hsB]; split <;> exact g2
      have hBbal : sB.balancer = s.balancer := by
        rw [hsB]; split <;> exact g6
      have hBpools : sB.pools = s.pools := by
        rw [hsB]; split <;> exact g1
      have hBeffP : ∀ p ts, Effect.poolSnapshot p ts ∈ sB.effects →
          Effect.poolSnapshot p ts ∈ s.effects := by
        intro p ts hm
        rw [hsB] at hm
        split at hm
        · simp [addEffect, g9] at hm
          exact hm
        · rw [g9] at hm
          exact hm
      have hBeffS : ∀ p ts v f, Effect.swapSnapshot p ts v f ∈ sB.effects →
          Effect.swapSnapshot p ts v f ∈ s.effects := by
        intro p ts v f hm
        rw [hsB] at hm
        split at hm
        · simp [addEffect, g9] at hm
          exact hm
        · rw [g9] at hm
          exact hm
      refine ⟨c1.trans hBtp, c2.trans hBtpp, c3.trans hBphl, c4.trans hBlat, c5.trans hBids,
        c6.trans (by rw [hBbal]), ?_, c8, ?_, ?_⟩
      · obtain ⟨pool1, h71, h72, h73⟩ := c7
        exact ⟨pool, pool1, rfl, by rw [h71, hBpools], h72, h73⟩
      · intro p ts hm
        exact hBeffP p ts (c9 p ts hm)
      · intro p ts v f hm
        exact hBeffS p ts v f (c10 p ts v f hm)

/-- C6 counterexample: a swap whose outbound scaled amount is zero, on a
pool whose inbound leg is a pricing asset, still performs the bookkeeping
(the swap is saved and the pool's swap counter is bumped) but skips
everything after the guard: no TokenPrice is captured and no
PoolHistoricalLiquidity row is written, while the same swap with a
nonzero outbound amount produces both.  The remaining steps of the swap's
processing are therefore skipped, contrary to the claim. -/
theorem zero_amount_swap_skips_price_capture :
    (handleSwapEvent cfgA evSwapZero storeZeroSwap).map
      (fun st => (st.tokenPrices ("P", "B", "A", 3), st.phls ("P", "A", 3),
        (st.pools "P").map Pool.swapsCount, (st.swaps ("T", 0)).isSome))
      = some (none, none, some 1, true)
    ∧ (handleSwapEvent cfgA evSwapPos storeZeroSwap).map
      (fun st => ((st.tokenPrices ("P", "B", "A", 3)).isSome,
        (st.phls ("P", "A", 3)).isSome)) = some (true, true) := by
  constructor
  · simp +decide [handleSwapEvent, swapBookkeeping, swapBookkeepingCore, swapTail,
      tradePairPriceStep, captureIn, captureOut, getUserStore, getUser, getToken,
      isVariableWeightPool, scaleDown, batchSwapStep, getBatchSwap, batchOutSum,
      valueInUSD, isUSDStable, isPricingAsset, getTradePair, getTradePairId,
      updatePoolLiquidityWithSuccess, tokenLoop, poolLiquidityInUSDOpt, poolLiquidityInUSD,
      setSwap, setBatchSwap, setPool, setPoolToken, setTokenPrice, setLatestPrice, setPHL,
      setUser, setTradePair, setTradePairPrice, addEffect, upd, emptyStore, createPool,
      storeZeroSwap, cfgA, evSwapZero, blankPool, blankVault]
  · simp +decide [handleSwapEvent, swapBookkeeping, swapBookkeepingCore, swapTail,
      tradePairPriceStep, captureIn, captureOut, getUserStore, getUser, getToken,
      isVariableWeightPool, scaleDown, batchSwapStep, getBatchSwap, batchOutSum,
      valueInUSD, isUSDStable, isPricingAsset, getTradePair, getTradePairId,
      updatePoolLiquidityWithSuccess, tokenLoop, poolLiquidityInUSDOpt, poolLiquidityInUSD,
      setSwap, setBatchSwap, setPool, setPoolToken, setTokenPrice, setLatestPrice, setPHL,
      setUser, setTradePair, setTradePairPrice, addEffect, upd, emptyStore, createPool,
      storeZeroSwap, cfgA, evSwapZero, evSwapPos, blankPool, blankVault]

/-- C6 (amended): when either scaled swap amount is exactly zero the
handler returns immediately after the bookkeeping phase: the earlier steps
still apply (the swap record is saved and the pool's swap counter is
bumped, with the batch-swap aggregation, vault/user counters, token
balances and trade-pair volume statistics), but every remaining step is
skipped — not only the trade-pair exchange-rate update but also the
TokenPrice capture and liquidity recomputation (the token-price,
trade-pair-price and historical-liquidity tables and every pool's stored
liquidity are untouched) and the final pool and swap snapshot collaborator
calls (no such effect is emitted). -/
theorem zero_amount_swap_early_return (cfg : Config) (ev : SwapEventData)
    (s s1 : Store) (l : SwapLocals)
    (hbk : swapBookkeeping cfg ev s = some (some (s1, l)))
    (hz : l.tokenAmountOut = 0 ∨ l.tokenAmountIn = 0) :
    handleSwapEvent cfg ev s = some s1
    ∧ s1.tokenPrices = s.tokenPrices
    ∧ s1.tradePairPrices = s.tradePairPrices
    ∧ s1.phls = s.phls
    ∧ (s1.swaps (ev.transactionHash, ev.logIndex)).isSome = true
    ∧ (∃ pool pool1, s.pools ev.poolId = some pool
        ∧ s1.pools = upd s.pools ev.poolId pool1
        ∧ pool1.liquidity = pool.liquidity ∧ pool1.swapsCount = pool.swapsCount + 1)
    ∧ (∀ p ts, Effect.poolSnapshot p ts ∈ s1.effects → Effect.poolSnapshot p ts ∈ s.effects)
    ∧ (∀ p ts v f, Effect.swapSnapshot p ts v f ∈ s1.effects →
        Effect.swapSnapshot p ts v f ∈ s.effects) := by
  obtain ⟨c1, c2, c3, c4, c5, c6, c7, c8, c9, c10⟩ := swapBookkeeping_shape cfg ev s s1 l hbk
  refine ⟨?_, c1, c2, c3, c8, c7, c9, c10⟩
  simp only [handleSwapEvent, hbk, if_pos hz]

theorem zero_amount_swap_early_return_witness :
    swapBookkeeping cfgA evSwapZero storeZeroSwap = some (some (zeroPair.1, zeroPair.2))
    ∧ (zeroPair.2.tokenAmountOut = 0 ∨ zeroPair.2.tokenAmountIn = 0)
    ∧ handleSwapEvent cfgA evSwapZero storeZeroSwap = some zeroPair.1 := by
  have hbk : swapBookkeeping cfgA evSwapZero storeZeroSwap
      = some (some (zeroPair.1, zeroPair.2)) := by
    rfl
  have hz : zeroPair.2.tokenAmountOut = 0 ∨ zeroPair.2.tokenAmountIn = 0 := by
    left
    simp +decide [zeroPair, swapBookkeeping, swapBookkeepingCore, getUserStore, getUser,
      getToken, isVariableWeightPool, scaleDown, batchSwapStep, getBatchSwap, batchOutSum,
      valueInUSD, isUSDStable, isPricingAsset, getTradePair, getTradePairId,
      setSwap, setBatchSwap, setPool, setPoolToken, setUser, setTradePair, addEffect, upd,
      emptyStore, createPool, storeZeroSwap, cfgA, evSwapZero, blankPool, blankVault]
  exact ⟨hbk, hz, (zero_amount_swap_early_return cfgA evSwapZero storeZeroSwap
    zeroPair.1 zeroPair.2 hbk hz).1⟩

/-! ### C5 -/

/-- C5: the batch-swap aggregation block of the swap handler, keyed by the
transaction hash: the inbound amount is accumulated exactly when the
batch's already-recorded inbound token equals this swap's inbound token;
the batch's outbound token becomes this swap's outbound token and its
outbound total is recomputed as this swap's outbound amount plus the
matching outbound amounts of the swaps already recorded in the batch (the
current swap's id is appended to the batch's swap list only after these
sums, so it is never double-counted); matchingTokens is set when the
batch's inbound and outbound tokens coincide.  On the spec's two-swap
example S1(in=A,out=B,10/20), S2(in=B,out=A,15/9) in one transaction the
resulting BatchSwap is tokenIn=A, tokenAmountIn=10, tokenOut=A,
tokenAmountOut=9, matchingTokens=true. -/
theorem batchSwap_aggregation :
    (∀ (s : Store) (tx : String) (swapId : String × BInt) (sw : SwapE)
      (s' : Store) (b : BatchSwapE),
      batchSwapStep s tx swapId sw = some (s', b) →
      (b.tokenIn = (getBatchSwap s tx sw).tokenIn
        ∧ b.tokenAmountIn = (if (getBatchSwap s tx sw).tokenIn = sw.tokenIn
            then (getBatchSwap s tx sw).tokenAmountIn + sw.tokenAmountIn
            else (getBatchSwap s tx sw).tokenAmountIn)
        ∧ b.tokenOut = sw.tokenOut
        ∧ (∃ priorOut, batchOutSum s sw.tokenOut (getBatchSwap s tx sw).swaps = some priorOut
            ∧ b.tokenAmountOut = sw.tokenAmountOut + priorOut)
        ∧ b.matchingTokens = (if (getBatchSwap s tx sw).tokenIn = sw.tokenOut then true
            else (getBatchSwap s tx sw).matchingTokens)
        ∧ b.swaps = (getBatchSwap s tx sw).swaps ++ [swapId]
        ∧ s' = setBatchSwap s tx b))
    ∧ (applyEvent cfgPlain (.swap evSwap2)
        (applyEvent cfgPlain (.swap evSwap1) storeBatch)).batchSwaps "T"
      = some
          { tokenIn := "A", tokenAmountIn := 10, tokenOut := "A", tokenAmountOut := 9,
            swaps := [("T", 0), ("T", 1)], matchingTokens := true, user := "u" } := by
  constructor
  · intro s tx swapId sw s' b h
    simp only [batchSwapStep] at h
    by_cases hin : (getBatchSwap s tx sw).tokenIn = sw.tokenIn
    · rw [if_pos hin] at h
      split at h
      next hsum => exact Option.noConfusion h
      next priorOut hsum =>
        injection h with h1
        rw [Prod.mk.injEq] at h1
        obtain ⟨hs', hb⟩ := h1
        subst hb
        subst hs'
        dsimp only
        by_cases hmt : (getBatchSwap s tx sw).tokenIn = sw.tokenOut
        · refine ⟨?_, ?_, ?_, ⟨priorOut, hsum, ?_⟩, ?_, ?_, ?_⟩ <;>
            first
              | rfl
              | (simp only [if_pos hin, if_pos hmt]; try rfl)
        · refine ⟨?_, ?_, ?_, ⟨priorOut, hsum, ?_⟩, ?_, ?_, ?_⟩ <;>
            first
              | rfl
              | (simp only [if_pos hin, if_neg hmt]; try rfl)
    · rw [if_neg hin] at h
      split at h
      next hsum => exact Option.noConfusion h
      next priorOut hsum =>
        injection h with h1
        rw [Prod.mk.injEq] at h1
        obtain ⟨hs', hb⟩ := h1
        subst hb
        subst hs'
        dsimp only
        by_cases hmt : (getBatchSwap s tx sw).tokenIn = sw.tokenOut
        · refine ⟨?_, ?_, ?_, ⟨priorOut, hsum, ?_⟩, ?_, ?_, ?_⟩ <;>
            first
              | rfl
              | (simp only [if_neg hin, if_pos hmt]; try rfl)
        · refine ⟨?_, ?_, ?_, ⟨priorOut, hsum, ?_⟩, ?_, ?_, ?_⟩ <;>
            first
              | rfl
              | (simp only [if_neg hin, if_neg hmt]; try rfl)
  · simp +decide [applyEvent, handleSwapEvent, swapBookkeeping, swapBookkeepingCore, swapTail,
      tradePairPriceStep, captureIn, captureOut, getUserStore, getUser, getToken,
      isVariableWeightPool, scaleDown, batchSwapStep, getBatchSwap, batchOutSum,
      valueInUSD, isUSDStable, isPricingAsset, getTradePair, getTradePairId,
      updatePoolLiquidityWithSuccess, tokenLoop, poolLiquidityInUSDOpt, poolLiquidityInUSD,
      setSwap, setBatchSwap, setPool, setPoolToken, setTokenPrice, setLatestPrice, setPHL,
      setUser, setTradePair, setTradePairPrice, addEffect, upd, emptyStore, createPool,
      storeBatch, cfgPlain, evSwap1, evSwap2, blankPool, blankVault]

theorem batchSwap_aggregation_witness :
    batchSwapStep emptyStore "T" ("T", 0) swW = some (setBatchSwap emptyStore "T" bW, bW)
    ∧ bW.tokenIn = (getBatchSwap emptyStore "T" swW).tokenIn
    ∧ bW.tokenOut = swW.tokenOut
    ∧ bW.swaps = (getBatchSwap emptyStore "T" swW).swaps ++ [("T", 0)] := by
  have h : batchSwapStep emptyStore "T" ("T", 0) swW
      = some (setBatchSwap emptyStore "T" bW, bW) := rfl
  obtain ⟨w1, _, w3, _, _, w6, _⟩ :=
    batchSwap_aggregation.1 emptyStore "T" ("T", 0) swW (setBatchSwap emptyStore "T" bW) bW h
  exact ⟨h, w1, w3, w6⟩

/-! ### C1 -/

/-- Replacing a single pool record changes the direct liquidity summation
by exactly the difference at that pool. -/
lemma sumLiq_upd (pid : String) (p1 : Pool) (pools : String → Option Pool) :
    ∀ (ids : List String), ids.Nodup → pid ∈ ids →
      (ids.map (fun q => (((upd pools pid p1) q).bind Pool.liquidity).getD 0)).sum
        = (ids.map (fun q => ((pools q).bind Pool.liquidity).getD 0)).sum
          + (p1.liquidity.getD 0 - ((pools pid).bind Pool.liquidity).getD 0) := by
  intro ids
  induction ids with
  | nil => intro _ h; cases h
  | cons a t ih =>
    intro hnd hmem
    simp only [List.map_cons, List.sum_cons]
    rcases List.mem_cons.1 hmem with hak | hkt
    · obtain rfl := hak
      have hknt : pid ∉ t := (List.nodup_cons.1 hnd).1
      have hmap : t.map (fun q => (((upd pools pid p1) q).bind Pool.liquidity).getD 0)
          = t.map (fun q => ((pools q).bind Pool.liquidity).getD 0) := by
        apply List.map_congr_left
        intro x hx
        have hxp : x ≠ pid := fun hxx => hknt (hxx ▸ hx)
        rw [upd_ne _ _ _ hxp]
      rw [hmap, upd_eq]
      show p1.liquidity.getD 0 + _ = _
      ring
    · have ha : a ≠ pid := fun haa => (List.nodup_cons.1 hnd).1 (haa ▸ hkt)
      rw [upd_ne _ _ _ ha, ih (List.nodup_cons.1 hnd).2 hkt]
      ring

/-- The invariant only reads the pool-id index, the Pool table and the
Balancer singleton, so it transports along equalities of those fields. -/
lemma wf_liq_frame (s s' : Store) (h1 : s'.poolIds = s.poolIds) (h2 : s'.pools = s.pools)
    (h3 : s'.balancer = s.balancer) (h : LiqInv s) : LiqInv s' := by
  obtain ⟨⟨hnd, hiff⟩, hL⟩ := h
  refine ⟨⟨?_, ?_⟩, ?_⟩
  · rw [h1]; exact hnd
  · intro pid
    rw [h1, h2]
    exact hiff pid
  · unfold totalLiq sumLiq
    rw [h1, h2, h3]
    exact hL

/-- The invariant is preserved by overwriting one existing pool record as
long as the protocol total absorbs exactly the liquidity difference. -/
lemma wf_liq_update (s s' : Store) (pid : String) (pool p1 : Pool)
    (hp : s.pools pid = some pool)
    (hids : s'.poolIds = s.poolIds)
    (hpools : s'.pools = upd s.pools pid p1)
    (hbal : totalLiq s' = totalLiq s + (p1.liquidity.getD 0 - pool.liquidity.getD 0))
    (h : LiqInv s) : LiqInv s' := by
  obtain ⟨⟨hnd, hiff⟩, hL⟩ := h
  have hmem : pid ∈ s.poolIds := (hiff pid).1 (by rw [hp]; rfl)
  refine ⟨⟨?_, ?_⟩, ?_⟩
  · rw [hids]; exact hnd
  · intro q
    rw [hids, hpools]
    by_cases hq : q = pid
    · subst hq
      rw [upd_eq]
      simp only [Option.isSome_some, true_iff]
      exact hmem
    · rw [upd_ne _ _ _ hq]
      exact hiff q
  · rw [hbal, hL]
    unfold sumLiq
    rw [hids, hpools]
    rw [sumLiq_upd pid p1 s.pools s.poolIds hnd hmem]
    have hf : ((s.pools pid).bind Pool.liquidity).getD 0 = pool.liquidity.getD 0 := by
      rw [hp]
      rfl
    rw [hf]

/-- The boolean liquidity-recomputation routine preserves the invariant. -/
lemma liqInv_v5 (cfg : Config) (s : Store) (pid : String) (blk : BInt) (pa : Addr)
    (ts : BInt) (act : Addr) (b : Bool) (s' : Store)
    (h : updatePoolLiquidityWithSuccess cfg s pid blk pa ts act = some (b, s'))
    (hI : LiqInv s) : LiqInv s' := by
  obtain ⟨hids, hfalse, htrue, _⟩ :=
    updatePoolLiquidityWithSuccess_cases cfg s pid blk pa ts act b s' h
  cases b with
  | false =>
    obtain ⟨hpools, hbal⟩ := hfalse rfl
    exact wf_liq_frame s s' hids hpools hbal hI
  | true =>
    obtain ⟨pool, vault, newLiq, hp, hbv, hpools, hbal⟩ := htrue rfl
    refine wf_liq_update s s' pid pool { pool with liquidity := some newLiq }
      hp hids hpools ?_ hI
    unfold totalLiq
    rw [hbal, hbv]
    rfl

/-- The pricing-asset loop of the join and exit handlers preserves the
invariant. -/
lemma liqInv_tryUpdates (cfg : Config) (pid : String) (blk ts : BInt) (act : Addr) :
    ∀ (l : List Addr) (s : Store) (r : Store × ℕ),
      tryUpdates cfg pid blk ts act l s = some r → LiqInv s → LiqInv r.1 := by
  intro l
  induction l with
  | nil =>
    intro s r h hI
    simp only [tryUpdates] at h
    injection h with h1
    rw [← h1]
    exact hI
  | cons t rest ih =>
    intro s r h hI
    by_cases hpr : isPricingAsset cfg t = true
    · cases hv5 : updatePoolLiquidityWithSuccess cfg s pid blk t ts act with
      | none =>
        have heq : tryUpdates cfg pid blk ts act (t :: rest) s = none := by
          simp only [tryUpdates, if_pos hpr, hv5]
        rw [heq] at h
        cases h
      | some p =>
        obtain ⟨succ, s1⟩ := p
        have hI1 : LiqInv s1 := liqInv_v5 cfg s pid blk t ts act succ s1 hv5 hI
        cases succ with
        | true =>
          have heq : tryUpdates cfg pid blk ts act (t :: rest) s = some (s1, 1) := by
            simp only [tryUpdates, if_pos hpr, hv5, if_pos rfl, eq_self_iff_true, if_true]
          rw [heq] at h
          injection h with h1
          rw [← h1]
          exact hI1
        | false =>
          have heq : tryUpdates cfg pid blk ts act (t :: rest) s
              = tryUpdates cfg pid blk ts act rest s1 := by
            simp only [tryUpdates, if_pos hpr, hv5]
            rfl
          rw [heq] at h
          exact ih s1 r h hI1
    · have heq : tryUpdates cfg pid blk ts act (t :: rest) s
          = tryUpdates cfg pid blk ts act rest s := by
        simp only [tryUpdates, if_neg hpr]
      rw [heq] at h
      exact ih s r h hI

/-- The join balance loop touches only the PoolToken table. -/
lemma joinBalanceLoop_frame (pid : String) :
    ∀ (ts : List Addr) (as' : List BInt) (s s' : Store),
      joinBalanceLoop pid ts as' s = some s' →
      s'.poolIds = s.poolIds ∧ s'.pools = s.pools ∧ s'.balancer = s.balancer := by
  intro ts
  induction ts with
  | nil =>
    intro as' s s' h
    simp only [joinBalanceLoop] at h
    injection h with h1
    subst h1
    exact ⟨rfl, rfl, rfl⟩
  | cons t rest ih =>
    intro as' s s' h
    cases as' with
    | nil =>
      simp only [joinBalanceLoop] at h
      exact Option.noConfusion h
    | cons a arest =>
      simp only [joinBalanceLoop] at h
      cases hpt : s.poolTokens (pid, t) with
      | none =>
        simp only [hpt] at h
        exact Option.noConfusion h
      | some poolToken =>
        simp only [hpt] at h
        obtain ⟨i1, i2, i3⟩ := ih arest _ s' h
        exact ⟨i1, i2, i3⟩

/-- Creating the PoolToken records of a new pool touches only the
PoolToken table. -/
lemma createPoolTokens_frame (pid : String) :
    ∀ (l : List Addr) (s : Store),
      (createPoolTokens pid l s).poolIds = s.poolIds
      ∧ (createPoolTokens pid l s).pools = s.pools
      ∧ (createPoolTokens pid l s).balancer = s.balancer := by
  intro l
  induction l with
  | nil => intro s; exact ⟨rfl, rfl, rfl⟩
  | cons t rest ih =>
    intro s
    simp only [createPoolTokens]
    exact ih (setPoolToken s (pid, t) { balance := 0, invested := 0 })

/-- The lazily initialized Balancer singleton starts with, or keeps, the
current protocol liquidity total. -/
lemma findOrInitializeVault_totalLiquidity (s : Store) :
    ∀ s2 : Store, s2.balancer = s.balancer →
      (findOrInitializeVault s2).totalLiquidity = totalLiq s := by
  intro s2 h2
  unfold findOrInitializeVault totalLiq
  rw [h2]
  cases s.balancer
  · rfl
  · rfl

/-- Shape of handleNewPool on a fresh pool id: the id is registered, the
record starts without a liquidity value, and the protocol total is
unchanged. -/
lemma handleNewPool_shape (ev : PoolCreatedEvent) (s : Store)
    (hp : s.pools ev.poolId = none) :
    (handleNewPool ev s).poolIds = ev.poolId :: s.poolIds
    ∧ (∃ p0, (handleNewPool ev s).pools = upd s.pools ev.poolId p0 ∧ p0.liquidity = none)
    ∧ totalLiq (handleNewPool ev s) = totalLiq s := by
  unfold handleNewPool
  simp only [hp]
  refine ⟨rfl, ⟨_, rfl, rfl⟩, ?_⟩
  show (findOrInitializeVault (createPool s ev.poolId _)).totalLiquidity = totalLiq s
  exact findOrInitializeVault_totalLiquidity s _ rfl

/-- The factory pool-creation path preserves the invariant: a new pool
starts without liquidity (contributing zero to the sum) and neither the
factory nor the token bookkeeping touches the protocol total. -/
lemma liqInv_createPool (ev : PoolCreatedEvent) (s : Store) (hI : LiqInv s) :
    LiqInv (createWeightedLikePool ev s) := by
  have hnew : LiqInv (handleNewPool ev s) := by
    cases hp : s.pools ev.poolId with
    | some pool =>
      have heq : handleNewPool ev s = s := by
        unfold handleNewPool
        simp only [hp]
      rw [heq]
      exact hI
    | none =>
      obtain ⟨hids, ⟨p0, hpools, hliq⟩, htl⟩ := handleNewPool_shape ev s hp
      obtain ⟨⟨hnd, hiff⟩, hL⟩ := hI
      have hnm : ev.poolId ∉ s.poolIds := by
        intro hm
        have h2 := (hiff ev.poolId).2 hm
        rw [hp] at h2
        simp at h2
      refine ⟨⟨?_, ?_⟩, ?_⟩
      · rw [hids]
        exact List.nodup_cons.2 ⟨hnm, hnd⟩
      · intro q
        rw [hids, hpools]
        by_cases hq : q = ev.poolId
        · subst hq
          rw [upd_eq]
          simp [List.mem_cons]
        · rw [upd_ne _ _ _ hq, List.mem_cons]
          constructor
          · intro hs
            exact Or.inr ((hiff q).1 hs)
          · intro hqor
            rcases hqor with hq1 | hq2
            · exact absurd hq1 hq
            · exact (hiff q).2 hq2
      · rw [htl, hL]
        unfold sumLiq
        rw [hids, hpools]
        simp only [List.map_cons, List.sum_cons]
        rw [upd_eq]
        have hmap : s.poolIds.map
              (fun q => (((upd s.pools ev.poolId p0) q).bind Pool.liquidity).getD 0)
            = s.poolIds.map (fun q => ((s.pools q).bind Pool.liquidity).getD 0) := by
          apply List.map_congr_left
          intro x hx
          have hxne : x ≠ ev.poolId := fun hxx => hnm (hxx ▸ hx)
          rw [upd_ne _ _ _ hxne]
        rw [hmap]
        show (s.poolIds.map _).sum = (p0.liquidity).getD 0 + (s.poolIds.map _).sum
        rw [hliq]
        show (s.poolIds.map _).sum = 0 + (s.poolIds.map _).sum
        rw [zero_add]
  simp only [createWeightedLikePool]
  cases hp1 : (handleNewPool ev s).pools ev.poolId with
  | none => exact hnew
  | some pool =>
    show LiqInv (createPoolTokens ev.poolId ev.tokens
      (setPool (handleNewPool ev s) ev.poolId
        { pool with
          tokensList := ev.tokens, tokensCount := (ev.tokens.length : BInt),
          poolType := some ev.poolType }))
    set P1 : Pool :=
      { pool with
        tokensList := ev.tokens, tokensCount := (ev.tokens.length : BInt),
        poolType := some ev.poolType } with hP1
    obtain ⟨cpt1, cpt2, cpt3⟩ := createPoolTokens_frame ev.poolId ev.tokens
      (setPool (handleNewPool ev s) ev.poolId P1)
    refine wf_liq_update (handleNewPool ev s) _ ev.poolId pool P1 hp1 cpt1 cpt2 ?_ hnew
    have hb : totalLiq (createPoolTokens ev.poolId ev.tokens
        (setPool (handleNewPool ev s) ev.poolId P1)) = totalLiq (handleNewPool ev s) := by
      unfold totalLiq
      rw [cpt3]
      rfl
    rw [hb]
    show totalLiq (handleNewPool ev s)
        = totalLiq (handleNewPool ev s) + (pool.liquidity.getD 0 - pool.liquidity.getD 0)
    rw [sub_self, add_zero]

/-- The join handler preserves the invariant: it touches pool liquidity
only through the pricing-asset loop. -/
lemma liqInv_joined (cfg : Config) (ev : PoolBalanceChangedEvent) (s s' : Store)
    (h : handlePoolJoined cfg ev s = some s') (hI : LiqInv s) : LiqInv s' := by
  simp only [handlePoolJoined] at h
  cases hp : s.pools ev.poolId with
  | none =>
    simp only [hp] at h
    injection h with h1
    rw [← h1]
    exact hI
  | some pool =>
    simp only [hp] at h
    cases hja : joinAmountsLoop s pool.tokensList ev.deltas with
    | none =>
      simp only [hja] at h
      exact Option.noConfusion h
    | some joinAmounts =>
      simp only [hja] at h
      split at h
      next hjb => exact Option.noConfusion h
      next s2 hjb =>
        split at h
        next htr => exact Option.noConfusion h
        next s3 n htr =>
          injection h with h1
          have hI2 : LiqInv s2 := by
            obtain ⟨j1, j2, j3⟩ :=
              joinBalanceLoop_frame ev.poolId pool.tokensList ev.deltas _ s2 hjb
            exact wf_liq_frame s s2 j1 j2 j3 hI
          have hI3 : LiqInv s3 := by
            have h3 := liqInv_tryUpdates cfg ev.poolId ev.blockNumber ev.blockTimestamp
              ev.liquidityProvider pool.tokensList s2 (s3, n) htr hI2
            exact h3
          refine wf_liq_frame s3 s' ?_ ?_ ?_ hI3
          · rw [← h1]; rfl
          · rw [← h1]; rfl
          · rw [← h1]; rfl

/-- The exit handler preserves the invariant. -/
lemma liqInv_exited (cfg : Config) (ev : PoolBalanceChangedEvent) (s s' : Store)
    (h : handlePoolExited cfg ev s = some s') (hI : LiqInv s) : LiqInv s' := by
  simp only [handlePoolExited] at h
  cases hp : s.pools ev.poolId with
  | none =>
    simp only [hp] at h
    injection h with h1
    rw [← h1]
    exact hI
  | some pool =>
    simp only [hp] at h
    simp only [exitBalanceLoop_eq_joinBalanceLoop] at h
    have h0 : LiqInv (setPool s ev.poolId pool) := by
      refine wf_liq_frame s _ rfl ?_ rfl hI
      funext q
      by_cases hq : q = ev.poolId
      · subst hq
        show upd s.pools ev.poolId pool ev.poolId = s.pools ev.poolId
        rw [upd_eq]
        exact hp.symm
      · show upd s.pools ev.poolId pool q = s.pools q
        rw [upd_ne _ _ _ hq]
    cases hja : joinAmountsLoop (setPool s ev.poolId pool) pool.tokensList
        (ev.deltas.map (fun a => -a)) with
    | none =>
      simp only [hja] at h
      exact Option.noConfusion h
    | some exitAmounts =>
      simp only [hja] at h
      split at h
      next hjb => exact Option.noConfusion h
      next s2 hjb =>
        split at h
        next htr => exact Option.noConfusion h
        next s3 n htr =>
          injection h with h1
          have hI2 : LiqInv s2 := by
            obtain ⟨j1, j2, j3⟩ :=
              joinBalanceLoop_frame ev.poolId pool.tokensList ev.deltas _ s2 hjb
            exact wf_liq_frame (setPool s ev.poolId pool) s2 j1 j2 j3 h0
          have hI3 : LiqInv s3 := by
            have h3 := liqInv_tryUpdates cfg ev.poolId ev.blockNumber ev.blockTimestamp
              ev.liquidityProvider pool.tokensList s2 (s3, n) htr hI2
            exact h3
          refine wf_liq_frame s3 s' ?_ ?_ ?_ hI3
          · rw [← h1]; rfl
          · rw [← h1]; rfl
          · rw [← h1]; rfl

/-- The balance-change dispatcher preserves the invariant. -/
lemma liqInv_balanceChange (cfg : Config) (ev : PoolBalanceChangedEvent) (s s' : Store)
    (h : handleBalanceChange cfg ev s = some s') (hI : LiqInv s) : LiqInv s' := by
  simp only [handleBalanceChange] at h
  by_cases hlen : ev.deltas.length = 0
  · rw [if_pos hlen] at h
    injection h with h1
    rw [← h1]
    exact hI
  · rw [if_neg hlen] at h
    by_cases htot : ev.deltas.foldl (fun sum amount => sum + amount) 0 > 0
    · rw [if_pos htot] at h
      exact liqInv_joined cfg ev s s' h hI
    · rw [if_neg htot] at h
      exact liqInv_exited cfg ev s s' h hI

/-- The internal-balance handler preserves the invariant (it only touches
user records and internal balances). -/
lemma liqInv_internal (ev : InternalBalanceChangedEvent) (s s' : Store)
    (h : handleInternalBalanceChange ev s = some s') (hI : LiqInv s) : LiqInv s' := by
  obtain ⟨g1, g2, _, _, _, g6, _, _, _⟩ := getUserStore_agree s ev.user
  simp only [handleInternalBalanceChange] at h
  injection h with h1
  refine wf_liq_frame s s' ?_ ?_ ?_ hI
  · rw [← h1]; exact g2
  · rw [← h1]; exact g1
  · rw [← h1]; exact g6

/-- The asset-manager handler preserves the invariant (it only touches
pool tokens and investments). -/
lemma liqInv_manage (ev : PoolBalanceManagedEvent) (s s' : Store)
    (h : handleBalanceManage ev s = some s') (hI : LiqInv s) : LiqInv s' := by
  simp only [handleBalanceManage] at h
  cases hp : s.pools ev.poolId with
  | none =>
    simp only [hp] at h
    injection h with h1
    rw [← h1]
    exact hI
  | some pool =>
    simp only [hp] at h
    cases hpt : s.poolTokens (ev.poolId, ev.token) with
    | none =>
      simp only [hpt] at h
      exact Option.noConfusion h
    | some poolToken =>
      simp only [hpt] at h
      injection h with h1
      refine wf_liq_frame s s' ?_ ?_ ?_ hI
      · rw [← h1]; rfl
      · rw [← h1]; rfl
      · rw [← h1]; rfl

/-- Case analysis of the three-argument updatePoolLiquidity: either the
Pool table and the Balancer singleton are untouched, or one existing pool
with a previously stored liquidity is overwritten and the protocol total
absorbs exactly the difference. -/
lemma updatePoolLiquidity_cases (cfg : Config) (s : Store) (pid : String) (blk : BInt)
    (pa : Addr) (s' : Store) (h : updatePoolLiquidity cfg s pid blk pa = some s') :
    s'.poolIds = s.poolIds
    ∧ ((s'.pools = s.pools ∧ s'.balancer = s.balancer)
      ∨ ∃ pool old newLiq vault, s.pools pid = some pool ∧ pool.liquidity = some old
          ∧ s.balancer = some vault
          ∧ s'.pools = upd s.pools pid { pool with liquidity := some newLiq }
          ∧ s'.balancer = some { vault with totalLiquidity :=
              vault.totalLiquidity + (newLiq - old) }) := by
  cases hp : s.pools pid with
  | none =>
    have heq : updatePoolLiquidity cfg s pid blk pa = some s := by
      simp only [updatePoolLiquidity, hp]
    rw [heq] at h
    injection h with h1
    subst h1
    exact ⟨rfl, Or.inl ⟨rfl, rfl⟩⟩
  | some pool =>
    by_cases hc2 : pool.tokensCount < 2
    · have heq : updatePoolLiquidity cfg s pid blk pa = some s := by
        simp only [updatePoolLiquidity, hp, if_pos hc2]
      rw [heq] at h
      injection h with h1
      subst h1
      exact ⟨rfl, Or.inl ⟨rfl, rfl⟩⟩
    · by_cases hlen0 : pool.tokensList.length = 0
      · have heq : updatePoolLiquidity cfg s pid blk pa = some s := by
          simp only [updatePoolLiquidity, hp, if_neg hc2, if_pos hlen0]
        rw [heq] at h
        injection h with h1
        subst h1
        exact ⟨rfl, Or.inl ⟨rfl, rfl⟩⟩
      · cases hloop : tokenLoop pid blk pa pool.tokensList 0 s with
        | none =>
          have heq : updatePoolLiquidity cfg s pid blk pa = none := by
            simp only [updatePoolLiquidity, hp, if_neg hc2, if_neg hlen0, hloop]
          rw [heq] at h
          cases h
        | some r =>
          obtain ⟨pv, st⟩ := r
          have hshape := tokenLoop_shape pid blk pa pool.tokensList 0 s (pv, st) hloop
          cases hliq : pool.liquidity with
          | none =>
            have heq : updatePoolLiquidity cfg s pid blk pa
                = some (setPHL st (pid, pa, blk) { poolLiquidity := pv }) := by
              simp only [updatePoolLiquidity, hp, if_neg hc2, if_neg hlen0, hloop, hliq]
            rw [heq] at h
            injection h with h1
            have hids := congrArg Store.poolIds hshape
            have hpls := congrArg Store.pools hshape
            have hbls := congrArg Store.balancer hshape
            refine ⟨?_, Or.inl ⟨?_, ?_⟩⟩
            · rw [← h1]; exact hids
            · rw [← h1]; exact hpls
            · rw [← h1]; exact hbls
          | some old =>
            cases hbal : s.balancer with
            | none =>
              have hb1 : (setPHL st (pid, pa, blk) { poolLiquidity := pv }).balancer
                  = none := (congrArg Store.balancer hshape).trans hbal
              have heq : updatePoolLiquidity cfg s pid blk pa = none := by
                simp only [updatePoolLiquidity, hp, if_neg hc2, if_neg hlen0, hloop,
                  hliq, hb1]
              rw [heq] at h
              cases h
            | some vault =>
              have hb1 : (setPHL st (pid, pa, blk) { poolLiquidity := pv }).balancer
                  = some vault := (congrArg Store.balancer hshape).trans hbal
              have heq : updatePoolLiquidity cfg s pid blk pa
                  = some (setPool
                      { setPHL st (pid, pa, blk) { poolLiquidity := pv } with
                        balancer := some
                          { vault with
                            totalLiquidity := vault.totalLiquidity
                              + (poolLiquidityInUSD cfg
                                  (setPHL st (pid, pa, blk) { poolLiquidity := pv }) pv pa
                                - old) } }
                      pid
                      { pool with
                        liquidity := some (poolLiquidityInUSD cfg
                          (setPHL st (pid, pa, blk) { poolLiquidity := pv }) pv pa) }) := by
                simp only [updatePoolLiquidity, hp, if_neg hc2, if_neg hlen0, hloop,
                  hliq, hb1]
              rw [heq] at h
              injection h with h1
              have hids := congrArg Store.poolIds hshape
              have hXp := congrArg Store.pools hshape
              refine ⟨?_, Or.inr ⟨pool, old,
                poolLiquidityInUSD cfg (setPHL st (pid, pa, blk) { poolLiquidity := pv })
                  pv pa,
                vault, rfl, hliq, rfl, ?_, ?_⟩⟩
              · rw [← h1]; exact hids
              · rw [← h1]
                exact congrArg (fun f => upd f pid
                  { pool with
                    liquidity := some (poolLiquidityInUSD cfg
                      (setPHL st (pid, pa, blk) { poolLiquidity := pv }) pv pa) }) hXp
              · rw [← h1]; rfl

/-- The three-argument liquidity recomputation preserves the invariant. -/
lemma liqInv_liquidityUpdate (cfg : Config) (s : Store) (pid : String) (blk : BInt)
    (pa : Addr) (s' : Store) (h : updatePoolLiquidity cfg s pid blk pa = some s')
    (hI : LiqInv s) : LiqInv s' := by
  obtain ⟨hids, hcase⟩ := updatePoolLiquidity_cases cfg s pid blk pa s' h
  rcases hcase with ⟨hpools, hbal⟩ | ⟨pool, old, newLiq, vault, hp, hliq, hbv, hpools, hbal⟩
  · exact wf_liq_frame s s' hids hpools hbal hI
  · refine wf_liq_update s s' pid pool { pool with liquidity := some newLiq }
      hp hids hpools ?_ hI
    unfold totalLiq
    rw [hbal, hbv]
    show vault.totalLiquidity + (newLiq - old)
        = vault.totalLiquidity + (newLiq - pool.liquidity.getD 0)
    rw [hliq]
    rfl

/-- The trade-pair exchange-rate step touches only the trade-pair-price
table. -/
lemma tradePairPriceStep_frame (ev : SwapEventData) (l : SwapLocals) (s : Store) :
    (tradePairPriceStep ev l s).poolIds = s.poolIds
    ∧ (tradePairPriceStep ev l s).pools = s.pools
    ∧ (tradePairPriceStep ev l s).balancer = s.balancer := by
  simp only [tradePairPriceStep]
  by_cases hc : l.batchTokenIn ≠ l.batchTokenOut
  · rw [if_pos hc]
    by_cases h0 : ev.tokenIn = (getTradePair s ev.tokenIn ev.tokenOut).token0
    · rw [if_pos h0]
      exact ⟨rfl, rfl, rfl⟩
    · rw [if_neg h0]
      by_cases h1 : ev.tokenIn = (getTradePair s ev.tokenIn ev.tokenOut).token1
      · rw [if_pos h1]
        exact ⟨rfl, rfl, rfl⟩
      · rw [if_neg h1]
        exact ⟨rfl, rfl, rfl⟩
  · rw [if_neg hc]
    exact ⟨rfl, rfl, rfl⟩

/-- The inbound-leg capture preserves the invariant. -/
lemma liqInv_captureIn (cfg : Config) (ev : SwapEventData) (l : SwapLocals) (s s' : Store)
    (h : captureIn cfg ev l s = some s') (hI : LiqInv s) : LiqInv s' := by
  simp only [captureIn] at h
  by_cases hpr : isPricingAsset cfg ev.tokenIn = true
  · rw [if_pos hpr] at h
    cases hv5 : updatePoolLiquidityWithSuccess cfg
        (setTokenPrice s (ev.poolId, ev.tokenOut, ev.tokenIn, ev.blockNumber)
          { price := l.tokenAmountIn / l.tokenAmountOut, amount := l.tokenAmountIn,
            timestamp := ev.blockTimestamp })
        ev.poolId ev.blockNumber ev.tokenIn ev.blockTimestamp ev.txFrom with
    | none =>
      rw [hv5] at h
      exact Option.noConfusion h
    | some r =>
      obtain ⟨b, s2⟩ := r
      rw [hv5] at h
      replace h : some s2 = some s' := h
      injection h with h1
      have hIsp : LiqInv (setTokenPrice s (ev.poolId, ev.tokenOut, ev.tokenIn, ev.blockNumber)
          { price := l.tokenAmountIn / l.tokenAmountOut, amount := l.tokenAmountIn,
            timestamp := ev.blockTimestamp }) := wf_liq_frame s _ rfl rfl rfl hI
      have h2 := liqInv_v5 cfg _ ev.poolId ev.blockNumber ev.tokenIn ev.blockTimestamp
        ev.txFrom b s2 hv5 hIsp
      rw [← h1]
      exact h2
  · rw [if_neg hpr] at h
    injection h with h1
    rw [← h1]
    exact hI

/-- The outbound-leg capture preserves the invariant. -/
lemma liqInv_captureOut (cfg : Config) (ev : SwapEventData) (l : SwapLocals) (s s' : Store)
    (h : captureOut cfg ev l s = some s') (hI : LiqInv s) : LiqInv s' := by
  simp only [captureOut] at h
  by_cases hpr : isPricingAsset cfg ev.tokenOut = true
  · rw [if_pos hpr] at h
    cases hv5 : updatePoolLiquidityWithSuccess cfg
        (setTokenPrice s (ev.poolId, ev.tokenIn, ev.tokenOut, ev.blockNumber)
          { price := l.tokenAmountOut / l.tokenAmountIn, amount := l.tokenAmountOut,
            timestamp := ev.blockTimestamp })
        ev.poolId ev.blockNumber ev.tokenOut ev.blockTimestamp ev.txFrom with
    | none =>
      rw [hv5] at h
      exact Option.noConfusion h
    | some r =>
      obtain ⟨b, s2⟩ := r
      rw [hv5] at h
      replace h : some s2 = some s' := h
      injection h with h1
      have hIsp : LiqInv (setTokenPrice s (ev.poolId, ev.tokenIn, ev.tokenOut, ev.blockNumber)
          { price := l.tokenAmountOut / l.tokenAmountIn, amount := l.tokenAmountOut,
            timestamp := ev.blockTimestamp }) := wf_liq_frame s _ rfl rfl rfl hI
      have h2 := liqInv_v5 cfg _ ev.poolId ev.blockNumber ev.tokenOut ev.blockTimestamp
        ev.txFrom b s2 hv5 hIsp
      rw [← h1]
      exact h2
  · rw [if_neg hpr] at h
    injection h with h1
    rw [← h1]
    exact hI

/-- The post-guard tail of the swap handler preserves the invariant. -/
lemma liqInv_swapTail (cfg : Config) (ev : SwapEventData) (l : SwapLocals) (s s' : Store)
    (h : swapTail cfg ev l s = some s') (hI : LiqInv s) : LiqInv s' := by
  obtain ⟨t1, t2, t3⟩ := tradePairPriceStep_frame ev l s
  have hI1 : LiqInv (tradePairPriceStep ev l s) := wf_liq_frame s _ t1 t2 t3 hI
  simp only [swapTail] at h
  split at h
  next hci => exact Option.noConfusion h
  next s3 hci =>
    have hI3 : LiqInv s3 := liqInv_captureIn cfg ev l _ s3 hci hI1
    split at h
    next hco => exact Option.noConfusion h
    next s5 hco =>
      have hI5 : LiqInv s5 := liqInv_captureOut cfg ev l s3 s5 hco hI3
      injection h with h1
      refine wf_liq_frame s5 s' ?_ ?_ ?_ hI5
      · rw [← h1]; rfl
      · rw [← h1]; rfl
      · rw [← h1]; rfl

/-- The swap handler preserves the invariant: the bookkeeping phase keeps
every pool's liquidity and the protocol total, and the tail only updates
liquidity through the boolean recomputation routine. -/
lemma liqInv_swap (cfg : Config) (ev : SwapEventData) (s s' : Store)
    (h : handleSwapEvent cfg ev s = some s') (hI : LiqInv s) : LiqInv s' := by
  simp only [handleSwapEvent] at h
  cases hbk : swapBookkeeping cfg ev s with
  | none =>
    simp only [hbk] at h
    exact Option.noConfusion h
  | some o =>
    cases o with
    | none =>
      simp only [hbk] at h
      replace h : some (getUserStore s ev.txFrom) = some s' := h
      injection h with h1
      obtain ⟨g1, g2, _, _, _, g6, _, _, _⟩ := getUserStore_agree s ev.txFrom
      refine wf_liq_frame s s' ?_ ?_ ?_ hI
      · rw [← h1]; exact g2
      · rw [← h1]; exact g1
      · rw [← h1]; exact g6
    | some p =>
      obtain ⟨s1, l⟩ := p
      simp only [hbk] at h
      have hI1 : LiqInv s1 := by
        obtain ⟨c1, c2, c3, c4, c5, c6, c7, c8, c9, c10⟩ :=
          swapBookkeeping_shape cfg ev s s1 l hbk
        obtain ⟨pool, pool1, hp, hpools, hliq, _⟩ := c7
        refine wf_liq_update s s1 ev.poolId pool pool1 hp c5 hpools ?_ hI
        have hc6 : totalLiq s1 = totalLiq s := by
          unfold totalLiq
          rw [c6]
        rw [hc6, hliq, sub_self, add_zero]
      by_cases hz : l.tokenAmountOut = 0 ∨ l.tokenAmountIn = 0
      · rw [if_pos hz] at h
        injection h with h1
        rw [← h1]
        exact hI1
      · rw [if_neg hz] at h
        exact liqInv_swapTail cfg ev l s1 s' h hI1

/-- C1: replaying any event sequence from the empty store, after every
completed handler invocation the Balancer singleton's totalLiquidity
equals the direct sum over all Pool records of their stored liquidity (an
absent liquidity counting as zero): the delta accumulation performed by
updatePoolLiquidity never drifts from the direct summation. -/
theorem totalLiquidity_equals_pool_liquidity_sum (cfg : Config) (evs : List VaultEvent) :
    LiquidityInvariant (runEvents cfg evs emptyStore) := by
  have base : LiqInv emptyStore := by
    refine ⟨⟨List.nodup_nil, ?_⟩, ?_⟩
    · intro pid
      simp [emptyStore]
    · rfl
  have step : ∀ (e : VaultEvent) (s : Store), LiqInv s → LiqInv (applyEvent cfg e s) := by
    intro e s hI
    cases e with
    | poolCreated ev => exact liqInv_createPool ev s hI
    | balanceChanged ev =>
      show LiqInv ((handleBalanceChange cfg ev s).getD s)
      cases hh : handleBalanceChange cfg ev s with
      | none => exact hI
      | some s' => exact liqInv_balanceChange cfg ev s s' hh hI
    | swap ev =>
      show LiqInv ((handleSwapEvent cfg ev s).getD s)
      cases hh : handleSwapEvent cfg ev s with
      | none => exact hI
      | some s' => exact liqInv_swap cfg ev s s' hh hI
    | balanceManaged ev =>
      show LiqInv ((handleBalanceManage ev s).getD s)
      cases hh : handleBalanceManage ev s with
      | none => exact hI
      | some s' => exact liqInv_manage ev s s' hh hI
    | internalBalanceChanged ev =>
      show LiqInv ((handleInternalBalanceChange ev s).getD s)
      cases hh : handleInternalBalanceChange ev s with
      | none => exact hI
      | some s' => exact liqInv_internal ev s s' hh hI
    | liquidityUpdate pid blk pa =>
      show LiqInv ((updatePoolLiquidity cfg s pid blk pa).getD s)
      cases hh : updatePoolLiquidity cfg s pid blk pa with
      | none => exact hI
      | some s' => exact liqInv_liquidityUpdate cfg s pid blk pa s' hh hI
  have main : ∀ (l : List VaultEvent) (s : Store), LiqInv s → LiqInv (runEvents cfg l s) := by
    intro l
    induction l with
    | nil =>
      intro s hI
      exact hI
    | cons e t ih =>
      intro s hI
      show LiqInv (runEvents cfg t (applyEvent cfg e s))
      exact ih _ (step e s hI)
  exact (main evs emptyStore base).2

end BalancerV2
